import Mathlib

/-!
# Verification of the buddy memory allocator (telvart/Buddy-Memory-Allocator)

Shallow embedding of `src/buddy.c` and `src/buddy/buddy.c`.

Modelling conventions:
* Addresses are byte offsets from the base of `g_memory`; the C code only ever
  computes with `addr - g_memory`, so the base is normalised to 0.
* The intrusive doubly linked free lists (`struct list_head free_area[MAX_ORDER+1]`)
  are modelled as `freeArea : Nat → List Nat` holding page indices; `list_add`
  prepends (the C macro inserts right after the sentinel head) and
  `list_del_init` removes the node from the list containing it.
* `g_pages` is modelled as a total map `pages : Nat → Page`; the C array has
  `2^(MAX_ORDER-MIN_ORDER) = 256` entries and all indices that arise in defined
  executions are below 256.
* `int` fields that can be negative (`order`, sizes, the `-1` sentinel of
  `determineOrder`) are modelled as `Int`.
* The two source copies are line-identical (up to local variable names) for
  `determineOrder`, `splitMemory`, `buddy_init` and `buddy_alloc`; those
  embeddings are shared.  `buddy_free` differs: `src/buddy.c` checks
  `currentOrder` against `[MIN_ORDER, MAX_ORDER]` and on violation prints and
  spins forever (modelled by the outcome `FreeOutcome.fatal`), while
  `src/buddy/buddy.c` has no such check and is embedded separately as
  `buddy2_free`.
-/

namespace Buddy

/-- MIN_ORDER from buddy.c (4 KiB minimum block). -/
def MIN_ORDER : Nat := 12

/-- MAX_ORDER from buddy.c (1 MiB arena). -/
def MAX_ORDER : Nat := 20

/-- PAGE_SIZE = 1 << MIN_ORDER. -/
def PAGE_SIZE : Nat := 2 ^ MIN_ORDER

/-- Number of entries of g_pages: (1 << MAX_ORDER) / PAGE_SIZE = 256. -/
def N_PAGES : Nat := 2 ^ MAX_ORDER / PAGE_SIZE

/-- The page_t record from buddy.c (its intrusive list node is modelled by
membership in the `freeArea` lists of `AllocState`). -/
structure Page where
  index : Nat
  address : Nat
  order : Int
deriving Repr, DecidableEq

/-- The global state of the allocator: the g_pages array and the free_area
lists (a list of page indices per order). -/
structure AllocState where
  pages : Nat → Page
  freeArea : Nat → List Nat

/-- PAGE_TO_ADDR: page index to byte offset. -/
def PAGE_TO_ADDR (pageIdx : Nat) : Nat := pageIdx * PAGE_SIZE

/-- ADDR_TO_PAGE: byte offset to page index. -/
def ADDR_TO_PAGE (addr : Nat) : Nat := addr / PAGE_SIZE

/-- BUDDY_ADDR: `((addr - g_memory) ^ (1 << o)) + g_memory` with base 0. -/
def BUDDY_ADDR (addr : Nat) (o : Nat) : Nat := addr ^^^ 2 ^ o

/-- Model of `list_add(&g_pages[p].list, &free_area[k])`: prepend p to free[k]. -/
def listAdd (s : AllocState) (p : Nat) (k : Nat) : AllocState :=
  { s with freeArea := fun j => if j = k then p :: s.freeArea j else s.freeArea j }

/-- Model of `list_del_init(&g_pages[p].list)` when page p is linked in
free[k]: remove p from free[k]. -/
def listDel (s : AllocState) (p : Nat) (k : Nat) : AllocState :=
  { s with freeArea := fun j => if j = k then (s.freeArea j).erase p else s.freeArea j }

/-- Model of `g_pages[p].order = o`. -/
def setOrder (s : AllocState) (p : Nat) (o : Int) : AllocState :=
  { s with pages := fun q => if q = p then { s.pages q with order := o } else s.pages q }

/-- buddy_init from buddy.c: set every descriptor's index and address, clear
its order to -1, reinitialise every free list in [MIN_ORDER, MAX_ORDER], mark
descriptor 0 with order MAX_ORDER and put it on free[MAX_ORDER]. -/
def buddy_init (s : AllocState) : AllocState :=
  let s1 : AllocState :=
    { s with pages := fun p =>
        if p < N_PAGES then { index := p, address := PAGE_TO_ADDR p, order := -1 }
        else s.pages p }
  let s2 : AllocState :=
    { s1 with freeArea := fun k =>
        if MIN_ORDER ≤ k ∧ k ≤ MAX_ORDER then [] else s1.freeArea k }
  let s3 := setOrder s2 0 (MAX_ORDER : Int)
  listAdd s3 0 MAX_ORDER

/-- The loop of determineOrder with loop counter `order`.  The first argument
is the number of remaining iterations, `MAX_ORDER + 1 - order` (the loop runs
while `order ≤ MAX_ORDER`); it makes the recursion structural so that the
kernel can evaluate the function. -/
def determineOrderGo (size : Int) : Nat → Nat → Int
  | 0, _ => -1
  | fuel + 1, order =>
      if ((2 : Int) ^ order ≥ size) then (order : Int)
      else determineOrderGo size fuel (order + 1)

/-- The loop of determineOrder entered at loop counter `order`. -/
def determineOrderAux (size : Int) (order : Nat) : Int :=
  determineOrderGo size (MAX_ORDER + 1 - order) order

/-- determineOrder from buddy.c: scan order = MIN_ORDER .. MAX_ORDER and
return the first order with (1 << order) >= size, else -1. -/
def determineOrder (size : Int) : Int := determineOrderAux size MIN_ORDER

/-- splitMemory from buddy.c: recursively halve the block headed by page `p`
from `order` down to `orderNeeded`, pushing each right-half buddy onto the
free list one order below and stamping its order.  (The `order = 0` fallback
is unreachable at every call site: splitMemory is only invoked with
`orderNeeded ≤ order`, and in C the recursion simply stops at
`order == orderNeeded`.) -/
def splitMemory (s : AllocState) (p : Nat) (order orderNeeded : Nat) : AllocState :=
  if order = orderNeeded then s
  else
    match order with
    | 0 => s
    | o + 1 =>
      let buddy : Nat := ADDR_TO_PAGE (BUDDY_ADDR ((s.pages p).address) o)
      let s1 := setOrder s buddy (o : Int)
      let s2 := listAdd s1 buddy o
      splitMemory s2 p o orderNeeded

/-- The scan loop of buddy_alloc with loop counter `i`, recursing on the
number of remaining iterations `MAX_ORDER + 1 - i` (the loop runs while
`i ≤ MAX_ORDER`).  On the first nonempty free list it takes the head page,
unlinks it (`list_del_init`), splits it down to `orderNeeded`, stamps its
order and returns its address. -/
def allocScanGo (orderNeeded : Nat) : Nat → AllocState → Nat → Option Nat × AllocState
  | 0, s, _ => (none, s)
  | fuel + 1, s, i =>
      match s.freeArea i with
      | [] => allocScanGo orderNeeded fuel s (i + 1)
      | p :: rest =>
        let s1 : AllocState :=
          { s with freeArea := fun j => if j = i then rest else s.freeArea j }
        let s2 := splitMemory s1 p i orderNeeded
        let s3 := setOrder s2 p (orderNeeded : Int)
        (some ((s3.pages p).address), s3)

/-- The scan loop of buddy_alloc entered at order `i`. -/
def allocScan (s : AllocState) (orderNeeded i : Nat) : Option Nat × AllocState :=
  allocScanGo orderNeeded (MAX_ORDER + 1 - i) s i

/-- buddy_alloc from buddy.c.  Returns the allocated address (None for the
NULL returns) together with the state after the call. -/
def buddy_alloc (s : AllocState) (size : Int) : Option Nat × AllocState :=
  let orderNeeded := determineOrder size
  if orderNeeded = -1 then (none, s)
  else allocScan s orderNeeded.toNat orderNeeded.toNat

/-- Outcome of a call to buddy_free.  `fatal` is the diagnostic-and-spin path
of src/buddy.c (`printf` followed by `while(1);` — the call never returns and
no state is modified).  `ub` marks arguments on which the behaviour of the C
source is undefined (only used by `buddy2_free`, see there). -/
inductive FreeOutcome where
  | fatal : FreeOutcome
  | ub : FreeOutcome
  | ok : AllocState → FreeOutcome
deriving Inhabited

/-- True exactly on the `ok` outcome. -/
def FreeOutcome.isOk : FreeOutcome → Bool
  | .ok _ => true
  | _ => false

/-- The state of an `ok` outcome, with a default for the other outcomes. -/
def FreeOutcome.stateD : FreeOutcome → AllocState → AllocState
  | .ok s, _ => s
  | _, d => d

/-- The coalesce loop of buddy_free, shared letter for letter by both source
copies: `for (i = currentOrder; i < MAX_ORDER; i++)` — look the buddy up by
scanning free[i]; if absent break, else unlink it, let the lower of the two
descriptors become the head, and continue one order up.  On exit (break or
`i = MAX_ORDER`) stamp the head with order i and prepend it to free[i]. -/
def coalesceGo : Nat → AllocState → Nat → Nat → AllocState
  | 0, s, page, i => listAdd (setOrder s page (i : Int)) page i
  | fuel + 1, s, page, i =>
      let buddy : Nat := ADDR_TO_PAGE (BUDDY_ADDR ((s.pages page).address) i)
      if buddy ∈ s.freeArea i then
        let s1 := listDel s buddy i
        let page1 := if buddy < page then buddy else page
        coalesceGo fuel s1 page1 (i + 1)
      else
        listAdd (setOrder s page (i : Int)) page i

/-- The coalesce loop entered at order `i`; the recursion of `coalesceGo` is
on the number of remaining iterations `MAX_ORDER - i` (the loop runs while
`i < MAX_ORDER`). -/
def coalesceLoop (s : AllocState) (page i : Nat) : AllocState :=
  coalesceGo (MAX_ORDER - i) s page i

/-- buddy_free from src/buddy.c: reject (print diagnostic, spin forever) a
stored order outside [MIN_ORDER, MAX_ORDER], otherwise run the coalesce
loop. -/
def buddy_free (s : AllocState) (addr : Nat) : FreeOutcome :=
  let page := ADDR_TO_PAGE addr
  let currentOrder := (s.pages page).order
  if currentOrder < (MIN_ORDER : Int) ∨ currentOrder > (MAX_ORDER : Int) then
    FreeOutcome.fatal
  else
    FreeOutcome.ok (coalesceLoop s page currentOrder.toNat)

/-- buddy_free from src/buddy/buddy.c: identical to src/buddy.c's buddy_free
except that the order-range check is absent.  For a stored order below
MIN_ORDER the C source's behaviour is undefined (`1 << i` with negative `i`,
or traversal of a never-initialised `free_area[i]` head for orders 0..11);
those arguments are mapped to the `ub` marker and nothing is claimed about
them.  For a stored order of MAX_ORDER or above, the loop body never runs
and the function stores the block into `free_area[currentOrder]` — an
out-of-bounds array write when currentOrder > MAX_ORDER, modelled here as an
update of the total `freeArea` map at that index. -/
def buddy2_free (s : AllocState) (addr : Nat) : FreeOutcome :=
  let page := ADDR_TO_PAGE addr
  let currentOrder := (s.pages page).order
  if currentOrder < (MIN_ORDER : Int) then
    FreeOutcome.ub
  else
    FreeOutcome.ok (coalesceLoop s page currentOrder.toNat)

/-- Result of the spec-level coalesce description (claim C2 / spec §4.5):
the final head page, the final order, and the free lists after the removals
of the loop (before the final insertion). -/
structure CoalesceResult where
  head : Nat
  finalOrder : Nat
  lists : Nat → List Nat

/-- The coalesce loop exactly as the spec (§4.5) and claim C2 describe it,
phrased over page indices: while k < MAX the buddy descriptor at
`buddy_page(head, k) = head XOR 2^(k-MIN)` is searched for in free[k]; if
absent the loop stops, if present it is removed and the lower-indexed of the
two descriptors becomes the head.  This is the spec-side definition that
`buddy_free` is proved to refine. -/
def coalesceSpecGo : Nat → (Nat → List Nat) → Nat → Nat → CoalesceResult
  | 0, free, h, k => { head := h, finalOrder := k, lists := free }
  | fuel + 1, free, h, k =>
      let b := h ^^^ 2 ^ (k - MIN_ORDER)
      if b ∈ free k then
        coalesceSpecGo fuel (fun j => if j = k then (free j).erase b else free j) (min h b) (k + 1)
      else { head := h, finalOrder := k, lists := free }

/-- The spec coalesce description entered at order `k` (`MAX_ORDER - k`
remaining iterations). -/
def coalesceSpec (free : Nat → List Nat) (h k : Nat) : CoalesceResult :=
  coalesceSpecGo (MAX_ORDER - k) free h k

/-- Canonical page bookkeeping established by buddy_init and never modified
afterwards: descriptor p holds the address of page p. -/
def AddrOK (s : AllocState) : Prop :=
  ∀ p, p < N_PAGES → (s.pages p).address = PAGE_TO_ADDR p

/-- Well-formedness of the free lists: a member of free[k] is a valid page
index aligned to its order. -/
def FreeWF (s : AllocState) : Prop :=
  ∀ k, MIN_ORDER ≤ k → k ≤ MAX_ORDER → ∀ p ∈ s.freeArea k,
    p < N_PAGES ∧ p % 2 ^ (k - MIN_ORDER) = 0

/-- The eager-coalescing invariant of the spec (§3 invariant 2, §8): no block
on free[k] with k < MAX has its buddy also on free[k]. -/
def EagerCoalesced (s : AllocState) : Prop :=
  ∀ k, MIN_ORDER ≤ k → k < MAX_ORDER → ∀ p ∈ s.freeArea k,
    p ^^^ 2 ^ (k - MIN_ORDER) ∉ s.freeArea k

/-- Well-formedness of the ghost list of outstanding allocations (pairs of
returned address and the order they were allocated at). -/
def GhostWF (A : List (Nat × Nat)) : Prop :=
  ∀ q ∈ A, MIN_ORDER ≤ q.2 ∧ q.2 ≤ MAX_ORDER ∧
    ADDR_TO_PAGE q.1 < N_PAGES ∧ q.1 = PAGE_TO_ADDR (ADDR_TO_PAGE q.1) ∧
    (ADDR_TO_PAGE q.1) % 2 ^ (q.2 - MIN_ORDER) = 0

/-- The state invariant maintained by every reachable state. -/
def Inv (s : AllocState) (A : List (Nat × Nat)) : Prop :=
  AddrOK s ∧ FreeWF s ∧ EagerCoalesced s ∧ GhostWF A

/-- Reachable allocator states, with a ghost list `A` of outstanding
allocations (returned address, allocated order).  A free call requires its
argument to be a current outstanding allocation head whose stored order is
the order it was allocated at — the spec's precondition for `free` (§4.5,
§6). -/
inductive Reach : AllocState → List (Nat × Nat) → Prop where
  | init (s0 : AllocState) : Reach (buddy_init s0) []
  | reinit {s A} (h : Reach s A) : Reach (buddy_init s) []
  | allocOk {s A size a} (h : Reach s A) (ha : (buddy_alloc s size).1 = some a) :
      Reach (buddy_alloc s size).2 ((a, (determineOrder size).toNat) :: A)
  | allocFail {s A size} (h : Reach s A) (ha : (buddy_alloc s size).1 = none) :
      Reach (buddy_alloc s size).2 A
  | free {s A a o} (h : Reach s A) (hmem : (a, o) ∈ A)
      (hord : (s.pages (ADDR_TO_PAGE a)).order = (o : Int)) :
      Reach ((buddy_free s a).stateD s) (A.erase (a, o))

/-- One operation of the public interface, for comparing the two source
copies over call sequences (claim C10). -/
inductive BOp where
  | init : BOp
  | alloc (size : Int) : BOp
  | free (addr : Nat) : BOp

/-- One step of src/buddy.c: `none` when buddy_free hits its fatal path
(the call never returns), otherwise the allocation result (if any) and the
state after the call. -/
def step1 (s : AllocState) : BOp → Option (Option Nat × AllocState)
  | .init => some (none, buddy_init s)
  | .alloc size => some (buddy_alloc s size)
  | .free addr =>
      match buddy_free s addr with
      | .ok s1 => some (none, s1)
      | _ => none

/-- One step of src/buddy/buddy.c: as `step1` but with the second copy's
buddy_free; `none` marks the undefined-behaviour outcome. -/
def step2 (s : AllocState) : BOp → Option (Option Nat × AllocState)
  | .init => some (none, buddy_init s)
  | .alloc size => some (buddy_alloc s size)
  | .free addr =>
      match buddy2_free s addr with
      | .ok s1 => some (none, s1)
      | _ => none

/-- Run a call sequence under src/buddy.c, recording after every call the
value returned by that call and the resulting state. -/
def runTrace1 : AllocState → List BOp → Option (List (Option Nat × AllocState))
  | _, [] => some []
  | s, op :: ops =>
      match step1 s op with
      | none => none
      | some (r, s1) => (runTrace1 s1 ops).map (fun tr => (r, s1) :: tr)

/-- Run a call sequence under src/buddy/buddy.c. -/
def runTrace2 : AllocState → List BOp → Option (List (Option Nat × AllocState))
  | _, [] => some []
  | s, op :: ops =>
      match step2 s op with
      | none => none
      | some (r, s1) => (runTrace2 s1 ops).map (fun tr => (r, s1) :: tr)

/-- An arbitrary pre-init state, used to instantiate theorems in witnesses
(buddy_init overwrites everything the allocator reads). -/
def anyState : AllocState :=
  { pages := fun _ => { index := 0, address := 0, order := 0 },
    freeArea := fun _ => [] }

/-- A state whose page 0 descriptor carries the corrupt stored order 21
(> MAX_ORDER), used to exercise the invalid-order paths of the two copies
of buddy_free. -/
def invalidOrderState : AllocState :=
  { pages := fun _ => { index := 0, address := 0, order := 21 },
    freeArea := fun _ => [] }

/-! ## Small projection lemmas for the state operations -/

@[simp]
theorem listAdd_pages (s : AllocState) (p k : Nat) : (listAdd s p k).pages = s.pages := rfl

theorem listAdd_freeArea (s : AllocState) (p k j : Nat) :
    (listAdd s p k).freeArea j = if j = k then p :: s.freeArea j else s.freeArea j := rfl

@[simp]
theorem listAdd_freeArea_same (s : AllocState) (p k : Nat) :
    (listAdd s p k).freeArea k = p :: s.freeArea k := by
  simp [listAdd]

theorem listAdd_freeArea_ne (s : AllocState) (p k j : Nat) (h : j ≠ k) :
    (listAdd s p k).freeArea j = s.freeArea j := by
  simp [listAdd, h]

@[simp]
theorem listDel_pages (s : AllocState) (p k : Nat) : (listDel s p k).pages = s.pages := rfl

theorem listDel_freeArea (s : AllocState) (p k j : Nat) :
    (listDel s p k).freeArea j = if j = k then (s.freeArea j).erase p else s.freeArea j := rfl

@[simp]
theorem listDel_freeArea_same (s : AllocState) (p k : Nat) :
    (listDel s p k).freeArea k = (s.freeArea k).erase p := by
  simp [listDel]

theorem listDel_freeArea_ne (s : AllocState) (p k j : Nat) (h : j ≠ k) :
    (listDel s p k).freeArea j = s.freeArea j := by
  simp [listDel, h]

@[simp]
theorem setOrder_freeArea (s : AllocState) (p : Nat) (o : Int) :
    (setOrder s p o).freeArea = s.freeArea := rfl

@[simp]
theorem setOrder_pages_same (s : AllocState) (p : Nat) (o : Int) :
    (setOrder s p o).pages p = { s.pages p with order := o } := by
  simp [setOrder]

theorem setOrder_pages_ne (s : AllocState) (p q : Nat) (o : Int) (h : q ≠ p) :
    (setOrder s p o).pages q = s.pages q := by
  simp [setOrder, h]

@[simp]
theorem setOrder_address (s : AllocState) (p q : Nat) (o : Int) :
    ((setOrder s p o).pages q).address = (s.pages q).address := by
  by_cases h : q = p <;> simp [setOrder, h]

@[simp]
theorem setOrder_index (s : AllocState) (p q : Nat) (o : Int) :
    ((setOrder s p o).pages q).index = (s.pages q).index := by
  by_cases h : q = p <;> simp [setOrder, h]

/-! ## Bit arithmetic helpers -/

theorem div_xor_pow {A j : Nat} (hj : 12 ≤ j) :
    (A ^^^ 2 ^ j) / 2 ^ 12 = A / 2 ^ 12 ^^^ 2 ^ (j - 12) := by
  rw [← Nat.shiftRight_eq_div_pow, ← Nat.shiftRight_eq_div_pow]
  apply Nat.eq_of_testBit_eq
  intro n
  simp only [Nat.testBit_shiftRight, Nat.testBit_xor, Nat.testBit_two_pow]
  have : decide (j = 12 + n) = decide (j - 12 = n) := decide_eq_decide.mpr (by omega)
  rw [this]

/-- ADDR_TO_PAGE of BUDDY_ADDR is the XOR-buddy at page level. -/
theorem pageOf_buddyAddr (A j : Nat) (hj : MIN_ORDER ≤ j) :
    ADDR_TO_PAGE (BUDDY_ADDR A j) = ADDR_TO_PAGE A ^^^ 2 ^ (j - MIN_ORDER) :=
  div_xor_pow hj

theorem xor_pow_ne (a e : Nat) : a ^^^ 2 ^ e ≠ a := by
  intro h
  have h2 := congrArg (fun x => Nat.testBit x e) h
  simp [Nat.testBit_xor, Nat.testBit_two_pow_self] at h2

theorem xor_pow_xor_pow (a e : Nat) : (a ^^^ 2 ^ e) ^^^ 2 ^ e = a := by
  rw [Nat.xor_assoc, Nat.xor_self, Nat.xor_zero]

theorem xor_pow_ne_xor_pow {a e f : Nat} (hef : e ≠ f) : a ^^^ 2 ^ e ≠ a ^^^ 2 ^ f := by
  intro h
  have h2 := congrArg (fun x => a ^^^ x) h
  simp only [← Nat.xor_assoc, Nat.xor_self, Nat.zero_xor] at h2
  exact hef (Nat.pow_right_injective (le_refl 2) h2)

theorem testBit_false_of_mod {a e n : Nat} (h : a % 2 ^ e = 0) (hn : n < e) :
    a.testBit n = false := by
  have hdvd : 2 ^ e ∣ a := Nat.dvd_of_mod_eq_zero h
  have ha : a = 2 ^ e * (a / 2 ^ e) := (Nat.mul_div_cancel' hdvd).symm
  rw [ha, Nat.testBit_mul_pow_two]
  have : ¬ (n ≥ e) := by omega
  simp [this]

theorem mod_eq_zero_of_testBit {a e : Nat} (h : ∀ n, n < e → a.testBit n = false) :
    a % 2 ^ e = 0 := by
  apply Nat.eq_of_testBit_eq
  intro n
  simp only [Nat.testBit_mod_two_pow, Nat.zero_testBit]
  by_cases hn : n < e
  · simp [hn, h n hn]
  · simp [hn]

theorem xor_pow_mod (a e : Nat) : (a ^^^ 2 ^ e) % 2 ^ e = a % 2 ^ e := by
  apply Nat.eq_of_testBit_eq
  intro n
  simp only [Nat.testBit_mod_two_pow, Nat.testBit_xor]
  by_cases hn : n < e
  · simp [hn, Nat.testBit_two_pow_of_ne (by omega : e ≠ n)]
  · simp [hn]

theorem lt_xor_pow {a e : Nat} (h : a.testBit e = false) : a < a ^^^ 2 ^ e := by
  apply Nat.lt_of_testBit e h
  · simp [Nat.testBit_xor, h, Nat.testBit_two_pow_self]
  · intro j hj
    simp [Nat.testBit_xor, Nat.testBit_two_pow_of_ne (by omega : e ≠ j)]

theorem xor_pow_lt {a e : Nat} (h : a.testBit e = true) : a ^^^ 2 ^ e < a := by
  apply Nat.lt_of_testBit e
  · simp [Nat.testBit_xor, h, Nat.testBit_two_pow_self]
  · exact h
  · intro j hj
    simp [Nat.testBit_xor, Nat.testBit_two_pow_of_ne (by omega : e ≠ j)]

theorem aligned_succ {a e : Nat} (ha : a % 2 ^ e = 0) (hb : a.testBit e = false) :
    a % 2 ^ (e + 1) = 0 := by
  apply mod_eq_zero_of_testBit
  intro n hn
  by_cases h : n < e
  · exact testBit_false_of_mod ha h
  · have : n = e := by omega
    rw [this]; exact hb

theorem aligned_mono {a d e : Nat} (ha : a % 2 ^ d = 0) (hed : e ≤ d) : a % 2 ^ e = 0 :=
  Nat.mod_eq_zero_of_dvd ((pow_dvd_pow 2 hed).trans (Nat.dvd_of_mod_eq_zero ha))

theorem xor_pow_lt_bound {p e n : Nat} (hp : p < 2 ^ n) (he : e < n) : p ^^^ 2 ^ e < 2 ^ n :=
  Nat.xor_lt_two_pow hp (Nat.pow_lt_pow_right (by norm_num) he)

theorem xor_lt_256 {p e : Nat} (hp : p < 256) (he : e < 8) : p ^^^ 2 ^ e < 256 := by
  have h1 : (256 : Nat) = 2 ^ 8 := by norm_num
  rw [h1] at hp ⊢
  exact xor_pow_lt_bound hp he

/-- The merged head chosen by the coalesce loop (the lower of page and its
buddy) is aligned one order higher. -/
theorem merged_head_aligned {a e : Nat} (ha : a % 2 ^ e = 0) :
    (if a ^^^ 2 ^ e < a then a ^^^ 2 ^ e else a) % 2 ^ (e + 1) = 0 := by
  cases h : a.testBit e with
  | false =>
      have hlt := lt_xor_pow h
      rw [if_neg (by omega)]
      exact aligned_succ ha h
  | true =>
      have hlt := xor_pow_lt h
      rw [if_pos hlt]
      refine aligned_succ ?_ ?_
      · rw [xor_pow_mod]; exact ha
      · simp [Nat.testBit_xor, h, Nat.testBit_two_pow_self]

/-! ## Characterization of splitMemory -/

theorem MIN_ORDER_eq : MIN_ORDER = 12 := rfl

theorem MAX_ORDER_eq : MAX_ORDER = 20 := rfl

theorem N_PAGES_eq : N_PAGES = 256 := rfl

theorem PAGE_SIZE_eq : PAGE_SIZE = 4096 := rfl

theorem splitMemory_eq_self (s : AllocState) (p t : Nat) : splitMemory s p t t = s := by
  rw [splitMemory.eq_def]
  simp

theorem splitMemory_eq_step (s : AllocState) (p : Nat) {o t : Nat} (h : o + 1 ≠ t) :
    splitMemory s p (o + 1) t =
      splitMemory
        (listAdd (setOrder s (ADDR_TO_PAGE (BUDDY_ADDR ((s.pages p).address) o)) (o : Int))
          (ADDR_TO_PAGE (BUDDY_ADDR ((s.pages p).address) o)) o)
        p o t := by
  rw [splitMemory.eq_def]
  simp [h]

theorem splitMemory_address (s : AllocState) (p : Nat) (o t : Nat) (q : Nat) :
    ((splitMemory s p o t).pages q).address = (s.pages q).address := by
  induction o generalizing s with
  | zero =>
      rw [splitMemory.eq_def]
      split
      · rfl
      · rfl
  | succ o ih =>
      by_cases h : o + 1 = t
      · rw [h, splitMemory_eq_self]
      · rw [splitMemory_eq_step s p h, ih]
        simp

theorem splitMemory_index (s : AllocState) (p : Nat) (o t : Nat) (q : Nat) :
    ((splitMemory s p o t).pages q).index = (s.pages q).index := by
  induction o generalizing s with
  | zero =>
      rw [splitMemory.eq_def]
      split
      · rfl
      · rfl
  | succ o ih =>
      by_cases h : o + 1 = t
      · rw [h, splitMemory_eq_self]
      · rw [splitMemory_eq_step s p h, ih]
        simp

theorem splitMemory_pages_of_ne (s : AllocState) (p : Nat) {o t : Nat} (ht : t ≤ o) (q : Nat)
    (hq : ∀ j, t ≤ j → j < o → q ≠ ADDR_TO_PAGE (BUDDY_ADDR ((s.pages p).address) j)) :
    (splitMemory s p o t).pages q = s.pages q := by
  induction o generalizing s with
  | zero =>
      have h0 : t = 0 := by omega
      rw [h0, splitMemory_eq_self]
  | succ o ih =>
      by_cases h : o + 1 = t
      · rw [h, splitMemory_eq_self]
      · have ht2 : t ≤ o := by omega
        rw [splitMemory_eq_step s p h]
        set b := ADDR_TO_PAGE (BUDDY_ADDR ((s.pages p).address) o) with hbdef
        set s2 := listAdd (setOrder s b (o : Int)) b o with hs2
        have haddr : (s2.pages p).address = (s.pages p).address := by
          simp [hs2]
        have hrec := ih s2 ht2 (fun j hj1 hj2 => by
          rw [haddr]
          exact hq j hj1 (by omega))
        rw [hrec, hs2]
        have hqb : q ≠ b := hq o ht2 (by omega)
        simp [setOrder_pages_ne _ _ _ _ hqb]

theorem splitMemory_freeArea (s : AllocState) (p : Nat) {o t : Nat} (ht : t ≤ o) (j : Nat) :
    (splitMemory s p o t).freeArea j =
      if t ≤ j ∧ j < o then
        ADDR_TO_PAGE (BUDDY_ADDR ((s.pages p).address) j) :: s.freeArea j
      else s.freeArea j := by
  induction o generalizing s with
  | zero =>
      have h0 : t = 0 := by omega
      rw [h0, splitMemory_eq_self]
      have : ¬ (t ≤ j ∧ j < 0) := by omega
      simp [this]
  | succ o ih =>
      by_cases h : o + 1 = t
      · rw [h, splitMemory_eq_self]
        have : ¬ (t ≤ j ∧ j < t) := by omega
        simp [this]
      · have ht2 : t ≤ o := by omega
        rw [splitMemory_eq_step s p h]
        set b := ADDR_TO_PAGE (BUDDY_ADDR ((s.pages p).address) o) with hbdef
        set s2 := listAdd (setOrder s b (o : Int)) b o with hs2
        have haddr : (s2.pages p).address = (s.pages p).address := by
          simp [hs2]
        rw [ih s2 ht2, haddr]
        by_cases hjo : j = o
        · subst hjo
          have h1 : ¬ (t ≤ j ∧ j < j) := by omega
          have h2 : t ≤ j ∧ j < j + 1 := by omega
          simp only [h1, if_neg, if_pos h2, hs2]
          simp
        · have hfa : s2.freeArea j = s.freeArea j := by
            rw [hs2]
            simp [listAdd_freeArea_ne _ _ _ _ hjo]
          by_cases hlt : t ≤ j ∧ j < o
          · have : t ≤ j ∧ j < o + 1 := by omega
            simp only [if_pos hlt, if_pos this, hfa, hbdef]
          · have : ¬ (t ≤ j ∧ j < o + 1) := by omega
            simp only [if_neg hlt, if_neg this, hfa]

theorem splitMemory_stamp (s : AllocState) (p : Nat) {o t : Nat} (h12 : 12 ≤ t) (ht : t ≤ o)
    {j : Nat} (hj1 : t ≤ j) (hj2 : j < o) :
    ((splitMemory s p o t).pages (ADDR_TO_PAGE (BUDDY_ADDR ((s.pages p).address) j))).order
      = (j : Int) := by
  induction o generalizing s with
  | zero => omega
  | succ o ih =>
      have h : o + 1 ≠ t := by omega
      have ht2 : t ≤ o := by omega
      rw [splitMemory_eq_step s p h]
      set b := ADDR_TO_PAGE (BUDDY_ADDR ((s.pages p).address) o) with hbdef
      set s2 := listAdd (setOrder s b (o : Int)) b o with hs2
      have haddr : (s2.pages p).address = (s.pages p).address := by
        simp [hs2]
      by_cases hjo : j = o
      · subst hjo
        have hu := splitMemory_pages_of_ne s2 p ht2
          (ADDR_TO_PAGE (BUDDY_ADDR ((s.pages p).address) j))
          (fun i hi1 hi2 => by
            rw [haddr, pageOf_buddyAddr _ _ (by rw [MIN_ORDER_eq]; omega),
              pageOf_buddyAddr _ _ (by rw [MIN_ORDER_eq]; omega)]
            exact xor_pow_ne_xor_pow (by rw [MIN_ORDER_eq]; omega))
        rw [hu, hs2]
        simp [hbdef]
      · have hj2o : j < o := by omega
        have := ih s2 ht2 hj2o
        rw [haddr] at this
        exact this

/-! ## Characterization of determineOrder -/

theorem determineOrderAux_stop {size : Int} {i : Nat} (h : 20 < i) :
    determineOrderAux size i = -1 := by
  rw [determineOrderAux]
  have e : MAX_ORDER + 1 - i = 0 := by rw [MAX_ORDER_eq]; omega
  rw [e, determineOrderGo]

theorem determineOrderAux_found {size : Int} {i : Nat} (h : i ≤ 20) (hge : size ≤ (2 : Int) ^ i) :
    determineOrderAux size i = (i : Int) := by
  rw [determineOrderAux]
  have e : MAX_ORDER + 1 - i = (20 - i) + 1 := by rw [MAX_ORDER_eq]; omega
  rw [e, determineOrderGo, if_pos hge]

theorem determineOrderAux_next {size : Int} {i : Nat} (h : i ≤ 20) (hlt : (2 : Int) ^ i < size) :
    determineOrderAux size i = determineOrderAux size (i + 1) := by
  rw [determineOrderAux, determineOrderAux]
  have e1 : MAX_ORDER + 1 - i = (20 - i) + 1 := by rw [MAX_ORDER_eq]; omega
  have e2 : MAX_ORDER + 1 - (i + 1) = 20 - i := by rw [MAX_ORDER_eq]; omega
  rw [e1, e2, determineOrderGo, if_neg (not_le.mpr hlt)]

theorem determineOrderAux_cases {size : Int} :
    ∀ n i, 21 - i ≤ n →
      (determineOrderAux size i = -1 ∧ ∀ j, i ≤ j → j ≤ 20 → (2 : Int) ^ j < size) ∨
      (∃ k : Nat, i ≤ k ∧ k ≤ 20 ∧ determineOrderAux size i = (k : Int) ∧
        size ≤ (2 : Int) ^ k ∧ ∀ j, i ≤ j → j < k → (2 : Int) ^ j < size) := by
  intro n
  induction n with
  | zero =>
      intro i hle
      left
      constructor
      · exact determineOrderAux_stop (by omega)
      · intro j hj1 hj2
        omega
  | succ n ih =>
      intro i hle
      by_cases hi : i ≤ 20
      · by_cases hge : size ≤ (2 : Int) ^ i
        · right
          exact ⟨i, le_refl i, hi, determineOrderAux_found hi hge, hge, fun j hj1 hj2 => by omega⟩
        · have hlt : (2 : Int) ^ i < size := by omega
          rw [determineOrderAux_next hi hlt]
          rcases ih (i + 1) (by omega) with ⟨heq, hall⟩ | ⟨k, hk1, hk2, hk3, hk4, hk5⟩
          · left
            refine ⟨heq, fun j hj1 hj2 => ?_⟩
            by_cases hji : j = i
            · rw [hji]; exact hlt
            · exact hall j (by omega) hj2
          · right
            refine ⟨k, by omega, hk2, hk3, hk4, fun j hj1 hj2 => ?_⟩
            by_cases hji : j = i
            · rw [hji]; exact hlt
            · exact hk5 j (by omega) hj2
      · left
        constructor
        · exact determineOrderAux_stop (by omega)
        · intro j hj1 hj2
          omega

/-- Full behaviour of determineOrder: either the sentinel -1 with every order
in range too small, or the least sufficient order in [12, 20]. -/
theorem determineOrder_cases (size : Int) :
    (determineOrder size = -1 ∧ (2 : Int) ^ 20 < size) ∨
    (∃ k : Nat, 12 ≤ k ∧ k ≤ 20 ∧ determineOrder size = (k : Int) ∧
      size ≤ (2 : Int) ^ k ∧ ∀ j : Nat, 12 ≤ j → j < k → (2 : Int) ^ j < size) := by
  have h := @determineOrderAux_cases size 21 12 (by omega)
  rcases h with ⟨heq, hall⟩ | ⟨k, hk1, hk2, hk3, hk4, hk5⟩
  · left
    exact ⟨heq, hall 20 (by omega) (by omega)⟩
  · right
    exact ⟨k, hk1, hk2, hk3, hk4, hk5⟩

theorem determineOrder_ne_neg_one {size : Int} (h : size ≤ (2 : Int) ^ 20) :
    ∃ k : Nat, 12 ≤ k ∧ k ≤ 20 ∧ determineOrder size = (k : Int) ∧
      size ≤ (2 : Int) ^ k ∧ ∀ j : Nat, 12 ≤ j → j < k → (2 : Int) ^ j < size := by
  rcases determineOrder_cases size with ⟨_, hbig⟩ | hex
  · omega
  · exact hex

theorem determineOrder_neg_one {size : Int} (h : (2 : Int) ^ 20 < size) :
    determineOrder size = -1 := by
  rcases determineOrder_cases size with ⟨heq, _⟩ | ⟨k, _, hk2, _, hk4, _⟩
  · exact heq
  · exfalso
    have h2 : (2 : Int) ^ k ≤ (2 : Int) ^ 20 := pow_le_pow_right₀ (by norm_num) hk2
    omega

/-- **Claim C6.** For every integer size, determineOrder(size) returns the
smallest k in [MIN, MAX] with 2^k ≥ size; it returns the sentinel -1 exactly
when size > 2^MAX; and size 0 maps to MIN. -/
theorem claim_C6 (size : Int) :
    (determineOrder size = -1 ↔ (2 : Int) ^ MAX_ORDER < size) ∧
    (∀ k : Nat, determineOrder size = (k : Nat) →
      MIN_ORDER ≤ k ∧ k ≤ MAX_ORDER ∧ size ≤ (2 : Int) ^ k ∧
      ∀ j : Nat, MIN_ORDER ≤ j → j < k → (2 : Int) ^ j < size) ∧
    determineOrder 0 = (MIN_ORDER : Int) := by
  rw [MIN_ORDER_eq, MAX_ORDER_eq]
  refine ⟨⟨fun h1 => ?_, fun h2 => determineOrder_neg_one h2⟩, fun k hk => ?_, ?_⟩
  · rcases determineOrder_cases size with ⟨_, hbig⟩ | ⟨k, _, _, hk3, _, _⟩
    · exact hbig
    · rw [h1] at hk3
      omega
  · rcases determineOrder_cases size with ⟨heq, _⟩ | ⟨m, hm1, hm2, hm3, hm4, hm5⟩
    · rw [heq] at hk
      omega
    · have hkm : k = m := by
        rw [hm3] at hk
        omega
      rw [hkm]
      exact ⟨hm1, hm2, hm4, hm5⟩
  · exact determineOrderAux_found (by rw [MIN_ORDER_eq]; omega) (by positivity)

/-- Witness for C6 at a concrete size: 5000 needs order 13 (and order 12 is
too small). -/
theorem claim_C6_witness :
    determineOrder 5000 = ((13 : Nat) : Int) ∧ (5000 : Int) ≤ (2 : Int) ^ 13 ∧
      (2 : Int) ^ 12 < 5000 := by
  have h := (claim_C6 5000).2.1 13 (by decide)
  exact ⟨by decide, h.2.2.1, h.2.2.2 12 (by decide) (by decide)⟩

/-! ## Characterization of allocScan and buddy_alloc -/

theorem allocScan_stop {s : AllocState} {t i : Nat} (h : 20 < i) :
    allocScan s t i = (none, s) := by
  rw [allocScan]
  have e : MAX_ORDER + 1 - i = 0 := by rw [MAX_ORDER_eq]; omega
  rw [e, allocScanGo]

theorem allocScan_next {s : AllocState} {t i : Nat} (h : i ≤ 20) (he : s.freeArea i = []) :
    allocScan s t i = allocScan s t (i + 1) := by
  rw [allocScan, allocScan]
  have e1 : MAX_ORDER + 1 - i = (20 - i) + 1 := by rw [MAX_ORDER_eq]; omega
  have e2 : MAX_ORDER + 1 - (i + 1) = 20 - i := by rw [MAX_ORDER_eq]; omega
  rw [e1, e2, allocScanGo, he]

theorem allocScan_hit {s : AllocState} {t i p : Nat} {rest : List Nat} (h : i ≤ 20)
    (he : s.freeArea i = p :: rest) :
    allocScan s t i =
      (some (((setOrder
          (splitMemory { s with freeArea := fun j => if j = i then rest else s.freeArea j }
            p i t) p (t : Int)).pages p).address),
        setOrder
          (splitMemory { s with freeArea := fun j => if j = i then rest else s.freeArea j }
            p i t) p (t : Int)) := by
  rw [allocScan]
  have e1 : MAX_ORDER + 1 - i = (20 - i) + 1 := by rw [MAX_ORDER_eq]; omega
  rw [e1, allocScanGo, he]

theorem allocScan_run {s : AllocState} {t : Nat} :
    ∀ n i k, k - i ≤ n → i ≤ k → k ≤ 20 → (∀ j, i ≤ j → j < k → s.freeArea j = []) →
      allocScan s t i = allocScan s t k := by
  intro n
  induction n with
  | zero =>
      intro i k h1 h2 h3 h4
      have : i = k := by omega
      rw [this]
  | succ n ih =>
      intro i k h1 h2 h3 h4
      by_cases hik : i = k
      · rw [hik]
      · rw [allocScan_next (by omega) (h4 i le_rfl (by omega))]
        exact ih (i + 1) k (by omega) (by omega) h3 (fun j hj1 hj2 => h4 j (by omega) hj2)

theorem allocScan_some_inv {s : AllocState} {t : Nat} :
    ∀ n i a st, 21 - i ≤ n → allocScan s t i = (some a, st) →
      ∃ k p rest, i ≤ k ∧ k ≤ 20 ∧ (∀ j, i ≤ j → j < k → s.freeArea j = []) ∧
        s.freeArea k = p :: rest := by
  intro n
  induction n with
  | zero =>
      intro i a st h1 h2
      rw [allocScan_stop (by omega)] at h2
      simp at h2
  | succ n ih =>
      intro i a st h1 h2
      by_cases hi : i ≤ 20
      · cases he : s.freeArea i with
        | nil =>
            rw [allocScan_next hi he] at h2
            obtain ⟨k, p, rest, hk1, hk2, hk3, hk4⟩ := ih (i + 1) a st (by omega) h2
            refine ⟨k, p, rest, by omega, hk2, fun j hj1 hj2 => ?_, hk4⟩
            by_cases hji : j = i
            · rw [hji]; exact he
            · exact hk3 j (by omega) hj2
        | cons p rest =>
            exact ⟨i, p, rest, le_rfl, hi, fun j hj1 hj2 => by omega, he⟩
      · rw [allocScan_stop (by omega)] at h2
        simp at h2

theorem allocScan_none_state {s : AllocState} {t : Nat} :
    ∀ n i st, 21 - i ≤ n → allocScan s t i = (none, st) → st = s := by
  intro n
  induction n with
  | zero =>
      intro i st h1 h2
      rw [allocScan_stop (by omega)] at h2
      simp at h2
      exact h2.symm
  | succ n ih =>
      intro i st h1 h2
      by_cases hi : i ≤ 20
      · cases he : s.freeArea i with
        | nil =>
            rw [allocScan_next hi he] at h2
            exact ih (i + 1) st (by omega) h2
        | cons p rest =>
            rw [allocScan_hit hi he] at h2
            simp at h2
      · rw [allocScan_stop (by omega)] at h2
        simp at h2
        exact h2.symm

/-- **Claim C7.** buddy_alloc returns null for every size above 2^MAX, and
every null return leaves the state (free lists and page descriptors)
unchanged. -/
theorem claim_C7 (s : AllocState) (size : Int) :
    ((2 : Int) ^ MAX_ORDER < size → buddy_alloc s size = (none, s)) ∧
    ((buddy_alloc s size).1 = none → (buddy_alloc s size).2 = s) := by
  constructor
  · intro hbig
    rw [MAX_ORDER_eq] at hbig
    rw [buddy_alloc]
    simp [determineOrder_neg_one hbig]
  · intro hnone
    rw [buddy_alloc] at hnone ⊢
    by_cases hdet : determineOrder size = -1
    · simp [hdet]
    · simp only [if_neg hdet] at hnone ⊢
      have heq : allocScan s (determineOrder size).toNat (determineOrder size).toNat =
          (none, (allocScan s (determineOrder size).toNat (determineOrder size).toNat).2) := by
        rw [← hnone]
      exact allocScan_none_state 21 _ _ (by omega) heq

/-- Witness for C7: a request of 2^MAX + 1 bytes returns null and leaves the
state untouched. -/
theorem claim_C7_witness :
    ((2 : Int) ^ MAX_ORDER < 2 ^ 20 + 1) ∧
      buddy_alloc (buddy_init anyState) (2 ^ 20 + 1) = (none, buddy_init anyState) ∧
      ((buddy_alloc (buddy_init anyState) (2 ^ 20 + 1)).1 = none →
        (buddy_alloc (buddy_init anyState) (2 ^ 20 + 1)).2 = buddy_init anyState) := by
  refine ⟨by decide, ?_, (claim_C7 (buddy_init anyState) (2 ^ 20 + 1)).2⟩
  exact (claim_C7 (buddy_init anyState) (2 ^ 20 + 1)).1 (by decide)

/-- **Claim C8.** After every call to buddy_init (from any prior state, so in
particular also repeated calls) every page descriptor p has index p and
address base + p * 2^MIN, descriptor 0 has order MAX and is the sole element
of free[MAX], and free[k] is empty for MIN ≤ k < MAX. -/
theorem claim_C8 (s0 : AllocState) :
    (∀ p, p < N_PAGES →
      ((buddy_init s0).pages p).index = p ∧
      ((buddy_init s0).pages p).address = PAGE_TO_ADDR p) ∧
    ((buddy_init s0).pages 0).order = (MAX_ORDER : Int) ∧
    (buddy_init s0).freeArea MAX_ORDER = [0] ∧
    (∀ k, MIN_ORDER ≤ k → k < MAX_ORDER → (buddy_init s0).freeArea k = []) := by
  refine ⟨fun p hp => ?_, ?_, ?_, fun k hk1 hk2 => ?_⟩
  · by_cases h0 : p = 0
    · subst h0
      constructor <;> simp [buddy_init, setOrder, hp]
    · constructor <;> simp [buddy_init, setOrder, h0, hp]
  · simp [buddy_init, setOrder, N_PAGES_eq]
  · have hrange : MIN_ORDER ≤ MAX_ORDER ∧ MAX_ORDER ≤ MAX_ORDER := by
      rw [MIN_ORDER_eq, MAX_ORDER_eq]; omega
    simp [buddy_init, listAdd, setOrder, hrange]
  · have hne2 : k ≠ MAX_ORDER := by omega
    have hrange : MIN_ORDER ≤ k ∧ k ≤ MAX_ORDER := by omega
    simp [buddy_init, listAdd, setOrder, hrange, hne2]

/-- Witness for C8 at concrete descriptor 3 and order 13. -/
theorem claim_C8_witness :
    ((buddy_init anyState).pages 3).index = 3 ∧
    ((buddy_init anyState).pages 3).address = PAGE_TO_ADDR 3 ∧
    ((buddy_init anyState).pages 0).order = (MAX_ORDER : Int) ∧
    (buddy_init anyState).freeArea MAX_ORDER = [0] ∧
    (buddy_init anyState).freeArea 13 = [] := by
  have h := claim_C8 anyState
  exact ⟨(h.1 3 (by decide)).1, (h.1 3 (by decide)).2, h.2.1, h.2.2.1,
    h.2.2.2 13 (by decide) (by decide)⟩

/-- **Claim C3.** The split engine leaves the retained block's starting
address unchanged and, for each intermediate order k in (T, O], enqueues
exactly the right-half buddy (the block at address head XOR 2^(k-1)) onto
free[k-1], stamping its descriptor with order k-1; all other free lists are
untouched. -/
theorem claim_C3 (s : AllocState) (p : Nat) (O T : Nat) (h12 : MIN_ORDER ≤ T) (hTO : T ≤ O)
    (_hO : O ≤ MAX_ORDER) :
    (((splitMemory s p O T).pages p).address = (s.pages p).address) ∧
    (∀ k, T < k → k ≤ O →
      (splitMemory s p O T).freeArea (k - 1) =
        ADDR_TO_PAGE (BUDDY_ADDR ((s.pages p).address) (k - 1)) :: s.freeArea (k - 1) ∧
      ((splitMemory s p O T).pages
          (ADDR_TO_PAGE (BUDDY_ADDR ((s.pages p).address) (k - 1)))).order = ((k - 1 : Nat) : Int)) ∧
    (∀ j, j < T ∨ O ≤ j → (splitMemory s p O T).freeArea j = s.freeArea j) := by
  rw [MIN_ORDER_eq] at h12
  refine ⟨splitMemory_address s p O T p, fun k hk1 hk2 => ⟨?_, ?_⟩, fun j hj => ?_⟩
  · rw [splitMemory_freeArea s p hTO (k - 1), if_pos (by omega)]
  · exact splitMemory_stamp s p h12 hTO (by omega) (by omega)
  · rw [splitMemory_freeArea s p hTO j, if_neg (by omega)]

/-- Witness for C3: splitting the initial arena block (order 20) down to
order 12 pushes the right half of the last split (page 1 = 4096/PAGE_SIZE)
onto free[12] with order 12, and leaves free[11] untouched. -/
theorem claim_C3_witness :
    ((splitMemory (buddy_init anyState) 0 20 12).pages 0).address
        = ((buddy_init anyState).pages 0).address ∧
    (splitMemory (buddy_init anyState) 0 20 12).freeArea 12 =
      ADDR_TO_PAGE (BUDDY_ADDR (((buddy_init anyState).pages 0).address) 12)
        :: (buddy_init anyState).freeArea 12 ∧
    ((splitMemory (buddy_init anyState) 0 20 12).pages
        (ADDR_TO_PAGE (BUDDY_ADDR (((buddy_init anyState).pages 0).address) 12))).order
      = ((12 : Nat) : Int) ∧
    (splitMemory (buddy_init anyState) 0 20 12).freeArea 11
        = (buddy_init anyState).freeArea 11 := by
  have h := claim_C3 (buddy_init anyState) 0 20 12 (by decide) (by decide) (by decide)
  have h13 := h.2.1 13 (by decide) (by decide)
  exact ⟨h.1, h13.1, h13.2, h.2.2 11 (Or.inl (by decide))⟩

/-- **Claim C1.** If the target order T = determineOrder(size) is defined and
k is the smallest order in [T, MAX] with free[k] nonempty, with head page p,
then buddy_alloc removes p from free[k], splits it down (prepending the
right-half buddy onto each free[j], T ≤ j < k), stamps p with order T and
returns p's address — unchanged from before the call. -/
theorem claim_C1 (s : AllocState) (size : Int) (T k p : Nat) (rest : List Nat)
    (hT : determineOrder size = (T : Int))
    (hk1 : T ≤ k) (hk2 : k ≤ MAX_ORDER)
    (hmin : ∀ j, T ≤ j → j < k → s.freeArea j = [])
    (hhead : s.freeArea k = p :: rest) :
    (buddy_alloc s size).1 = some ((s.pages p).address) ∧
    ((buddy_alloc s size).2).freeArea k = rest ∧
    (((buddy_alloc s size).2).pages p).order = (T : Int) ∧
    (∀ j, T ≤ j → j < k →
      ((buddy_alloc s size).2).freeArea j =
        ADDR_TO_PAGE (BUDDY_ADDR ((s.pages p).address) j) :: s.freeArea j) ∧
    (∀ j, j ≠ k → ¬(T ≤ j ∧ j < k) → ((buddy_alloc s size).2).freeArea j = s.freeArea j) := by
  rw [MAX_ORDER_eq] at hk2
  have hTne : determineOrder size ≠ -1 := by rw [hT]; omega
  have halloc : buddy_alloc s size = allocScan s T T := by
    rw [buddy_alloc, if_neg hTne, hT, Int.toNat_natCast]
  have hrun : allocScan s T T = allocScan s T k :=
    allocScan_run k T k (by omega) hk1 hk2 hmin
  have hhit := allocScan_hit (t := T) hk2 hhead
  set s1 : AllocState :=
    { s with freeArea := fun j => if j = k then rest else s.freeArea j } with hs1
  have hs1p : s1.pages = s.pages := rfl
  have haddr : ∀ q, ((setOrder (splitMemory s1 p k T) p (T : Int)).pages q).address
      = (s.pages q).address := by
    intro q
    rw [setOrder_address, splitMemory_address, hs1p]
  have hresult : buddy_alloc s size =
      (some (((setOrder (splitMemory s1 p k T) p (T : Int)).pages p).address),
        setOrder (splitMemory s1 p k T) p (T : Int)) := by
    rw [halloc, hrun, hhit]
  rw [hresult]
  refine ⟨by rw [haddr p], ?_, by simp, fun j hj1 hj2 => ?_, fun j hj1 hj2 => ?_⟩
  · show (splitMemory s1 p k T).freeArea k = rest
    rw [splitMemory_freeArea s1 p hk1 k, if_neg (by omega)]
    show (if k = k then rest else s.freeArea k) = rest
    rw [if_pos rfl]
  · show (splitMemory s1 p k T).freeArea j = _
    rw [splitMemory_freeArea s1 p hk1 j, if_pos ⟨hj1, hj2⟩, hs1p]
    have hfa : s1.freeArea j = s.freeArea j := by
      show (if j = k then rest else s.freeArea j) = s.freeArea j
      rw [if_neg (by omega : j ≠ k)]
    rw [hfa]
  · show (splitMemory s1 p k T).freeArea j = s.freeArea j
    rw [splitMemory_freeArea s1 p hk1 j, if_neg hj2]
    show (if j = k then rest else s.freeArea j) = s.freeArea j
    rw [if_neg hj1]

/-- Witness for C1: on the freshly initialised arena, allocating 1 byte takes
the head of free[20] (page 0), returns address 0, stamps order 12 and fills
free[12..19] with the split buddies. -/
theorem claim_C1_witness :
    (buddy_alloc (buddy_init anyState) 1).1
        = some (((buddy_init anyState).pages 0).address) ∧
    ((buddy_alloc (buddy_init anyState) 1).2).freeArea 20 = [] ∧
    (((buddy_alloc (buddy_init anyState) 1).2).pages 0).order = ((12 : Nat) : Int) ∧
    ((buddy_alloc (buddy_init anyState) 1).2).freeArea 12 =
      ADDR_TO_PAGE (BUDDY_ADDR (((buddy_init anyState).pages 0).address) 12)
        :: (buddy_init anyState).freeArea 12 := by
  have h := claim_C1 (buddy_init anyState) 1 12 20 0 [] (by decide) (by decide) (by decide)
    (fun j h1 h2 => by interval_cases j <;> rfl) (by decide)
  exact ⟨h.1, h.2.1, h.2.2.1, h.2.2.2.1 12 (by decide) (by decide)⟩

/-! ## Characterization of the coalesce loop -/

theorem pageOf_pageAddr (p : Nat) : ADDR_TO_PAGE (PAGE_TO_ADDR p) = p := by
  rw [ADDR_TO_PAGE, PAGE_TO_ADDR]
  exact Nat.mul_div_cancel p (by rw [PAGE_SIZE_eq]; omega)

/-- With canonical addresses, the buddy page computed by the C code from the
page's address is the XOR-buddy of the page index. -/
theorem buddy_page_eq {s : AllocState} {page i : Nat}
    (hcanon : (s.pages page).address = PAGE_TO_ADDR page) (hi : MIN_ORDER ≤ i) :
    ADDR_TO_PAGE (BUDDY_ADDR ((s.pages page).address) i) = page ^^^ 2 ^ (i - MIN_ORDER) := by
  rw [hcanon, pageOf_buddyAddr _ _ hi, pageOf_pageAddr]

theorem coalesceLoop_stop {s : AllocState} {page i : Nat} (h : 20 ≤ i) :
    coalesceLoop s page i = listAdd (setOrder s page (i : Int)) page i := by
  rw [coalesceLoop]
  have e : MAX_ORDER - i = 0 := by rw [MAX_ORDER_eq]; omega
  rw [e, coalesceGo]

theorem coalesceLoop_found {s : AllocState} {page i : Nat} (h : i < 20)
    (hmem : ADDR_TO_PAGE (BUDDY_ADDR ((s.pages page).address) i) ∈ s.freeArea i) :
    coalesceLoop s page i =
      coalesceLoop
        (listDel s (ADDR_TO_PAGE (BUDDY_ADDR ((s.pages page).address) i)) i)
        (if ADDR_TO_PAGE (BUDDY_ADDR ((s.pages page).address) i) < page then
          ADDR_TO_PAGE (BUDDY_ADDR ((s.pages page).address) i)
        else page)
        (i + 1) := by
  rw [coalesceLoop, coalesceLoop]
  have e1 : MAX_ORDER - i = (19 - i) + 1 := by rw [MAX_ORDER_eq]; omega
  have e2 : MAX_ORDER - (i + 1) = 19 - i := by rw [MAX_ORDER_eq]; omega
  rw [e1, e2, coalesceGo]
  simp only [if_pos hmem]

theorem coalesceLoop_notfound {s : AllocState} {page i : Nat} (h : i < 20)
    (hnm : ADDR_TO_PAGE (BUDDY_ADDR ((s.pages page).address) i) ∉ s.freeArea i) :
    coalesceLoop s page i = listAdd (setOrder s page (i : Int)) page i := by
  rw [coalesceLoop]
  have e1 : MAX_ORDER - i = (19 - i) + 1 := by rw [MAX_ORDER_eq]; omega
  rw [e1, coalesceGo]
  simp only [if_neg hnm]

theorem coalesceSpec_stop {free : Nat → List Nat} {h k : Nat} (hk : 20 ≤ k) :
    coalesceSpec free h k = { head := h, finalOrder := k, lists := free } := by
  rw [coalesceSpec]
  have e : MAX_ORDER - k = 0 := by rw [MAX_ORDER_eq]; omega
  rw [e, coalesceSpecGo]

theorem coalesceSpec_found {free : Nat → List Nat} {h k : Nat} (hk : k < 20)
    (hmem : h ^^^ 2 ^ (k - MIN_ORDER) ∈ free k) :
    coalesceSpec free h k =
      coalesceSpec (fun j => if j = k then (free j).erase (h ^^^ 2 ^ (k - MIN_ORDER)) else free j)
        (min h (h ^^^ 2 ^ (k - MIN_ORDER))) (k + 1) := by
  rw [coalesceSpec, coalesceSpec]
  have e1 : MAX_ORDER - k = (19 - k) + 1 := by rw [MAX_ORDER_eq]; omega
  have e2 : MAX_ORDER - (k + 1) = 19 - k := by rw [MAX_ORDER_eq]; omega
  rw [e1, e2, coalesceSpecGo]
  simp only [if_pos hmem]

theorem coalesceSpec_notfound {free : Nat → List Nat} {h k : Nat} (hk : k < 20)
    (hnm : h ^^^ 2 ^ (k - MIN_ORDER) ∉ free k) :
    coalesceSpec free h k = { head := h, finalOrder := k, lists := free } := by
  rw [coalesceSpec]
  have e1 : MAX_ORDER - k = (19 - k) + 1 := by rw [MAX_ORDER_eq]; omega
  rw [e1, coalesceSpecGo]
  simp only [if_neg hnm]

/-- The C coalesce loop refines the spec description: under canonical
addresses the state it produces is exactly the one described by coalesceSpec
followed by the order stamp and head insertion. -/
theorem coalesceLoop_refines_spec :
    ∀ n s page i, 20 - i ≤ n → MIN_ORDER ≤ i → page < N_PAGES →
      (∀ q, q < N_PAGES → (s.pages q).address = PAGE_TO_ADDR q) →
      coalesceLoop s page i =
        listAdd
          (setOrder { s with freeArea := (coalesceSpec s.freeArea page i).lists }
            (coalesceSpec s.freeArea page i).head
            (((coalesceSpec s.freeArea page i).finalOrder : Nat) : Int))
          (coalesceSpec s.freeArea page i).head
          (coalesceSpec s.freeArea page i).finalOrder := by
  intro n
  induction n with
  | zero =>
      intro s page i h1 h2 h3 h4
      rw [coalesceLoop_stop (by omega), coalesceSpec_stop (by omega)]
  | succ n ih =>
      intro s page i h1 h2 h3 h4
      by_cases hi : i < 20
      · have hb := buddy_page_eq (h4 page h3) h2
        by_cases hmem : page ^^^ 2 ^ (i - MIN_ORDER) ∈ s.freeArea i
        · rw [coalesceLoop_found hi (by rw [hb]; exact hmem),
            coalesceSpec_found hi hmem]
          set b := page ^^^ 2 ^ (i - MIN_ORDER) with hbdef
          have h3a : page < 256 := by rw [N_PAGES_eq] at h3; exact h3
          have hblt : b < N_PAGES := by
            rw [hbdef, N_PAGES_eq]
            exact xor_lt_256 h3a (by rw [MIN_ORDER_eq]; omega)
          have hmin : (if ADDR_TO_PAGE (BUDDY_ADDR ((s.pages page).address) i) < page
              then ADDR_TO_PAGE (BUDDY_ADDR ((s.pages page).address) i) else page)
                = min page b := by
            rw [hb]
            rcases Nat.lt_or_ge b page with hc | hc
            · rw [if_pos hc, min_eq_right (le_of_lt hc)]
            · rw [if_neg (not_lt.mpr hc), min_eq_left hc]
          rw [hmin, hb]
          have hrec := ih (listDel s b i) (min page b) (i + 1) (by omega) (by omega)
            (by omega) (fun q hq => h4 q hq)
          rw [hrec]
          rfl
        · rw [coalesceLoop_notfound hi (by rw [hb]; exact hmem),
            coalesceSpec_notfound hi hmem]
      · rw [coalesceLoop_stop (by omega), coalesceSpec_stop (by omega)]

/-- **Claim C2.** For a call buddy_free(addr) whose head descriptor has a
stored order k0 in [MIN, MAX]: the loop repeatedly looks up the buddy of the
current head at the current order by searching free[k], stops when absent
(immediately at k = MAX), removes a found buddy, takes the lower-indexed
descriptor as the new head and moves one order up; the final head is stamped
with the final order and inserted at the head of that free list. -/
theorem claim_C2 (s : AllocState) (addr : Nat) (k0 : Nat)
    (haddr : addr < 2 ^ MAX_ORDER)
    (hcanon : ∀ q, q < N_PAGES → (s.pages q).address = PAGE_TO_ADDR q)
    (hord : (s.pages (ADDR_TO_PAGE addr)).order = (k0 : Int))
    (hk1 : MIN_ORDER ≤ k0) (hk2 : k0 ≤ MAX_ORDER) :
    buddy_free s addr =
      FreeOutcome.ok
        (listAdd
          (setOrder
            { s with freeArea := (coalesceSpec s.freeArea (ADDR_TO_PAGE addr) k0).lists }
            (coalesceSpec s.freeArea (ADDR_TO_PAGE addr) k0).head
            (((coalesceSpec s.freeArea (ADDR_TO_PAGE addr) k0).finalOrder : Nat) : Int))
          (coalesceSpec s.freeArea (ADDR_TO_PAGE addr) k0).head
          (coalesceSpec s.freeArea (ADDR_TO_PAGE addr) k0).finalOrder) := by
  rw [MIN_ORDER_eq] at hk1
  rw [MAX_ORDER_eq] at hk2
  have hpage : ADDR_TO_PAGE addr < N_PAGES := by
    rw [ADDR_TO_PAGE, PAGE_SIZE_eq, N_PAGES_eq]
    rw [MAX_ORDER_eq] at haddr
    omega
  rw [buddy_free]
  have hc : ¬ ((s.pages (ADDR_TO_PAGE addr)).order < (MIN_ORDER : Int) ∨
      (s.pages (ADDR_TO_PAGE addr)).order > (MAX_ORDER : Int)) := by
    rw [hord, MIN_ORDER_eq, MAX_ORDER_eq]
    push_neg
    constructor <;> [skip; skip] <;> exact_mod_cast by omega
  rw [if_neg hc]
  have htn : ((s.pages (ADDR_TO_PAGE addr)).order).toNat = k0 := by
    rw [hord, Int.toNat_natCast]
  rw [htn]
  exact congrArg FreeOutcome.ok
    (coalesceLoop_refines_spec 20 s (ADDR_TO_PAGE addr) k0 (by omega)
      (by rw [MIN_ORDER_eq]; omega) hpage hcanon)

set_option maxRecDepth 4000 in
/-- Witness for C2 on the freshly initialised arena: freeing the whole-arena
block (stored order 20, the loop stops immediately) reinserts page 0 at the
head of free[20]. -/
theorem claim_C2_witness :
    (0 : Nat) < 2 ^ MAX_ORDER ∧
    ((buddy_init anyState).pages (ADDR_TO_PAGE 0)).order = ((20 : Nat) : Int) ∧
    buddy_free (buddy_init anyState) 0 =
      FreeOutcome.ok
        (listAdd
          (setOrder
            { buddy_init anyState with
                freeArea := (coalesceSpec (buddy_init anyState).freeArea (ADDR_TO_PAGE 0) 20).lists }
            (coalesceSpec (buddy_init anyState).freeArea (ADDR_TO_PAGE 0) 20).head
            (((coalesceSpec (buddy_init anyState).freeArea (ADDR_TO_PAGE 0) 20).finalOrder : Nat) : Int))
          (coalesceSpec (buddy_init anyState).freeArea (ADDR_TO_PAGE 0) 20).head
          (coalesceSpec (buddy_init anyState).freeArea (ADDR_TO_PAGE 0) 20).finalOrder) := by
  refine ⟨by decide, by decide, ?_⟩
  exact claim_C2 (buddy_init anyState) 0 20 (by decide) (by decide) (by decide)
    (by decide) (by decide)

/-! ## The reachability invariant -/

theorem init_inv (s0 : AllocState) : Inv (buddy_init s0) [] := by
  refine ⟨fun p hp => ?_, fun k hk1 hk2 p hp => ?_, fun k hk1 hk2 p hp => ?_, fun q hq => ?_⟩
  · by_cases h0 : p = 0
    · subst h0
      simp [buddy_init, setOrder, hp]
    · simp [buddy_init, setOrder, h0, hp]
  · by_cases h20 : k = MAX_ORDER
    · subst h20
      have hrange : MIN_ORDER ≤ MAX_ORDER ∧ MAX_ORDER ≤ MAX_ORDER := ⟨hk1, le_refl _⟩
      simp only [buddy_init, listAdd, setOrder, if_pos hrange] at hp
      simp at hp
      subst hp
      exact ⟨by rw [N_PAGES_eq]; omega, Nat.zero_mod _⟩
    · have hrange : MIN_ORDER ≤ k ∧ k ≤ MAX_ORDER := ⟨hk1, hk2⟩
      simp only [buddy_init, listAdd, setOrder, if_pos hrange] at hp
      simp [h20] at hp
  · have h20 : k ≠ MAX_ORDER := by omega
    have hrange : MIN_ORDER ≤ k ∧ k ≤ MAX_ORDER := ⟨hk1, by omega⟩
    simp only [buddy_init, listAdd, setOrder, if_pos hrange] at hp
    simp [h20] at hp
  · simp at hq

theorem allocScan_address {s : AllocState} {t : Nat} :
    ∀ n i q, 21 - i ≤ n → (((allocScan s t i).2).pages q).address = (s.pages q).address := by
  intro n
  induction n with
  | zero =>
      intro i q h1
      rw [allocScan_stop (by omega)]
  | succ n ih =>
      intro i q h1
      by_cases hi : i ≤ 20
      · cases he : s.freeArea i with
        | nil =>
            rw [allocScan_next hi he]
            exact ih (i + 1) q (by omega)
        | cons p rest =>
            rw [allocScan_hit hi he]
            show ((setOrder _ _ _).pages q).address = _
            rw [setOrder_address, splitMemory_address]
      · rw [allocScan_stop (by omega)]

theorem buddy_alloc_none {s : AllocState} {size : Int} {st : AllocState}
    (h : buddy_alloc s size = (none, st)) : st = s := by
  rw [buddy_alloc] at h
  by_cases hdet : determineOrder size = -1
  · rw [if_pos hdet] at h
    simp at h
    exact h.symm
  · rw [if_neg hdet] at h
    exact allocScan_none_state 21 _ _ (by omega) h

/-- Decomposition of a successful buddy_alloc: the target order T, the
smallest nonempty order k, the head page p, and the exact output state. -/
theorem buddy_alloc_some {s : AllocState} {size : Int} {a : Nat} {st : AllocState}
    (h : buddy_alloc s size = (some a, st)) :
    ∃ (T k p : Nat) (rest : List Nat),
      determineOrder size = (T : Int) ∧ 12 ≤ T ∧ T ≤ 20 ∧
      T ≤ k ∧ k ≤ 20 ∧ (∀ j, T ≤ j → j < k → s.freeArea j = []) ∧
      s.freeArea k = p :: rest ∧
      a = (s.pages p).address ∧
      st = setOrder
        (splitMemory { s with freeArea := fun j => if j = k then rest else s.freeArea j }
          p k T) p (T : Int) := by
  rw [buddy_alloc] at h
  by_cases hdet : determineOrder size = -1
  · rw [if_pos hdet] at h
    simp at h
  · rcases determineOrder_cases size with ⟨heq, _⟩ | ⟨T, hT12, hT20, hTeq, _, _⟩
    · exact absurd heq hdet
    · rw [if_neg hdet, hTeq, Int.toNat_natCast] at h
      obtain ⟨k, p, rest, hk1, hk2, hmin, hhead⟩ :=
        allocScan_some_inv 21 T a st (by omega) h
      have hrun := allocScan_run (s := s) (t := T) k T k (by omega) hk1 hk2 hmin
      have hhit := allocScan_hit (t := T) hk2 hhead
      rw [hrun, hhit] at h
      simp only [Prod.mk.injEq, Option.some.injEq] at h
      refine ⟨T, k, p, rest, hTeq, hT12, hT20, hk1, hk2, hmin, hhead, ?_, h.2.symm⟩
      rw [← h.1, setOrder_address, splitMemory_address]

/-- The free lists of the state produced by a successful allocation, in terms
of the input state. -/
theorem alloc_state_freeArea {s : AllocState} {T k p : Nat} {rest : List Nat} (hTk : T ≤ k)
    (j : Nat) :
    ((setOrder
        (splitMemory { s with freeArea := fun j => if j = k then rest else s.freeArea j }
          p k T) p (T : Int)).freeArea j) =
      if T ≤ j ∧ j < k then
        ADDR_TO_PAGE (BUDDY_ADDR ((s.pages p).address) j) :: s.freeArea j
      else if j = k then rest else s.freeArea j := by
  rw [setOrder_freeArea]
  rw [splitMemory_freeArea _ _ hTk j]
  by_cases h1 : T ≤ j ∧ j < k
  · rw [if_pos h1, if_pos h1]
    have hjk : j ≠ k := by omega
    show _ :: (if j = k then rest else s.freeArea j) = _
    rw [if_neg hjk]
  · rw [if_neg h1, if_neg h1]

theorem alloc_preserves_inv {s : AllocState} {A : List (Nat × Nat)} {size : Int} {a : Nat}
    {st : AllocState} (hI : Inv s A) (h : buddy_alloc s size = (some a, st)) :
    Inv st ((a, (determineOrder size).toNat) :: A) := by
  obtain ⟨hA, hF, hE, hG⟩ := hI
  obtain ⟨T, k, p, rest, hTeq, hT12, hT20, hTk, hk20, hmin, hhead, haeq, hsteq⟩ :=
    buddy_alloc_some h
  have hpmem : p ∈ s.freeArea k := by rw [hhead]; exact List.mem_cons_self p rest
  have hpwf := hF k (by rw [MIN_ORDER_eq]; omega) (by rw [MAX_ORDER_eq]; omega) p hpmem
  have hcanonp : (s.pages p).address = PAGE_TO_ADDR p := hA p hpwf.1
  have htoNat : (determineOrder size).toNat = T := by rw [hTeq, Int.toNat_natCast]
  refine ⟨fun q hq => ?_, fun k' h1 h2 p' hp' => ?_, fun k' h1 h2 p' hp' => ?_,
    fun q hq => ?_⟩
  · rw [hsteq, setOrder_address, splitMemory_address]
    exact hA q hq
  · rw [hsteq, alloc_state_freeArea hTk k'] at hp'
    by_cases hc : T ≤ k' ∧ k' < k
    · rw [if_pos hc] at hp'
      rw [hmin k' hc.1 hc.2] at hp'
      simp at hp'
      subst hp'
      rw [buddy_page_eq hcanonp (by rw [MIN_ORDER_eq]; omega)]
      constructor
      · rw [N_PAGES_eq]
        have hp256 : p < 256 := by rw [N_PAGES_eq] at hpwf; exact hpwf.1
        exact xor_lt_256 hp256 (by rw [MAX_ORDER_eq] at h2; rw [MIN_ORDER_eq]; omega)
      · rw [xor_pow_mod]
        exact aligned_mono hpwf.2 (by rw [MIN_ORDER_eq] at h1 ⊢; omega)
    · rw [if_neg hc] at hp'
      by_cases hkk : k' = k
      · subst hkk
        rw [if_pos rfl] at hp'
        exact hF k' h1 h2 p' (by rw [hhead]; exact List.mem_cons_of_mem p hp')
      · rw [if_neg hkk] at hp'
        exact hF k' h1 h2 p' hp'
  · rw [hsteq, alloc_state_freeArea hTk k'] at hp' ⊢
    by_cases hc : T ≤ k' ∧ k' < k
    · rw [if_pos hc] at hp' ⊢
      rw [hmin k' hc.1 hc.2] at hp' ⊢
      simp at hp'
      subst hp'
      simp only [List.mem_singleton]
      exact fun hcontra => xor_pow_ne _ (k' - MIN_ORDER) hcontra
    · rw [if_neg hc] at hp' ⊢
      by_cases hkk : k' = k
      · subst hkk
        rw [if_pos rfl] at hp' ⊢
        have hp'mem : p' ∈ s.freeArea k' := by rw [hhead]; exact List.mem_cons_of_mem p hp'
        have := hE k' h1 h2 p' hp'mem
        intro hcontra
        exact this (by rw [hhead]; exact List.mem_cons_of_mem p hcontra)
      · rw [if_neg hkk] at hp' ⊢
        exact hE k' h1 h2 p' hp'
  · rcases List.mem_cons.mp hq with hq1 | hq2
    · subst hq1
      have hpage : ADDR_TO_PAGE a = p := by rw [haeq, hcanonp, pageOf_pageAddr]
      refine ⟨?_, ?_, ?_, ?_, ?_⟩
      · show MIN_ORDER ≤ (determineOrder size).toNat
        rw [htoNat, MIN_ORDER_eq]; omega
      · show (determineOrder size).toNat ≤ MAX_ORDER
        rw [htoNat, MAX_ORDER_eq]; omega
      · show ADDR_TO_PAGE a < N_PAGES
        rw [hpage]; exact hpwf.1
      · show a = PAGE_TO_ADDR (ADDR_TO_PAGE a)
        rw [hpage, haeq, hcanonp]
      · show (ADDR_TO_PAGE a) % 2 ^ ((determineOrder size).toNat - MIN_ORDER) = 0
        rw [hpage, htoNat]
        exact aligned_mono hpwf.2 (by rw [MIN_ORDER_eq]; omega)
    · exact hG q hq2

theorem coalesceLoop_inv :
    ∀ n s page i, 20 - i ≤ n → MIN_ORDER ≤ i → page < N_PAGES →
      page % 2 ^ (i - MIN_ORDER) = 0 → AddrOK s → FreeWF s → EagerCoalesced s →
      AddrOK (coalesceLoop s page i) ∧ FreeWF (coalesceLoop s page i) ∧
        EagerCoalesced (coalesceLoop s page i) := by
  intro n
  induction n with
  | zero =>
      intro s page i h1 h2 h3 h4 hA hF hE
      rw [coalesceLoop_stop (by rw [MIN_ORDER_eq] at h2; omega)]
      refine ⟨fun q hq => by rw [listAdd_pages, setOrder_address]; exact hA q hq,
        fun k' hk1 hk2 p' hp' => ?_, fun k' hk1 hk2 p' hp' => ?_⟩
      · rw [listAdd_freeArea, setOrder_freeArea] at hp'
        by_cases hki : k' = i
        · rw [if_pos hki] at hp'
          rcases List.mem_cons.mp hp' with hp1 | hp2
          · subst hp1
            exact ⟨h3, by rw [← hki] at h4; exact h4⟩
          · exact hF k' hk1 hk2 p' hp2
        · rw [if_neg hki] at hp'
          exact hF k' hk1 hk2 p' hp'
      · have hki : k' ≠ i := by rw [MAX_ORDER_eq] at hk2; rw [MIN_ORDER_eq] at h2; omega
        rw [listAdd_freeArea, setOrder_freeArea, if_neg hki] at hp' ⊢
        exact hE k' hk1 hk2 p' hp'
  | succ n ih =>
      intro s page i h1 h2 h3 h4 hA hF hE
      by_cases hi : i < 20
      · have hcanonp : (s.pages page).address = PAGE_TO_ADDR page := hA page h3
        have hb := buddy_page_eq hcanonp h2
        set b := page ^^^ 2 ^ (i - MIN_ORDER) with hbdef
        have hb256 : b < 256 := by
          rw [hbdef]
          have h3a : page < 256 := by rw [N_PAGES_eq] at h3; exact h3
          exact xor_lt_256 h3a (by rw [MIN_ORDER_eq]; omega)
        by_cases hmem : b ∈ s.freeArea i
        · rw [coalesceLoop_found hi (by rw [hb]; exact hmem)]
          rw [hb]
          have hmin : (if b < page then b else page) % 2 ^ (i + 1 - MIN_ORDER) = 0 := by
            have hma := merged_head_aligned (e := i - MIN_ORDER) (a := page) h4
            rw [← hbdef] at hma
            have he : i + 1 - MIN_ORDER = (i - MIN_ORDER) + 1 := by
              rw [MIN_ORDER_eq] at h2 ⊢; omega
            rw [he]
            exact hma
          refine ih (listDel s b i) (if b < page then b else page) (i + 1) (by omega)
            (by omega) ?_ hmin (fun q hq => hA q hq) ?_ ?_
          · by_cases hc : b < page
            · rw [if_pos hc]; rw [N_PAGES_eq]; exact hb256
            · rw [if_neg hc]; exact h3
          · intro k' hk1 hk2 p' hp'
            rw [listDel_freeArea] at hp'
            by_cases hki : k' = i
            · rw [if_pos hki] at hp'
              exact hF k' hk1 hk2 p' (List.mem_of_mem_erase hp')
            · rw [if_neg hki] at hp'
              exact hF k' hk1 hk2 p' hp'
          · intro k' hk1 hk2 p' hp'
            rw [listDel_freeArea] at hp' ⊢
            by_cases hki : k' = i
            · rw [if_pos hki] at hp' ⊢
              have hp'mem := List.mem_of_mem_erase hp'
              have := hE k' hk1 hk2 p' hp'mem
              intro hcontra
              exact this (List.mem_of_mem_erase hcontra)
            · rw [if_neg hki] at hp' ⊢
              exact hE k' hk1 hk2 p' hp'
        · rw [coalesceLoop_notfound hi (by rw [hb]; exact hmem)]
          refine ⟨fun q hq => by rw [listAdd_pages, setOrder_address]; exact hA q hq,
            fun k' hk1 hk2 p' hp' => ?_, fun k' hk1 hk2 p' hp' => ?_⟩
          · rw [listAdd_freeArea, setOrder_freeArea] at hp'
            by_cases hki : k' = i
            · rw [if_pos hki] at hp'
              rcases List.mem_cons.mp hp' with hp1 | hp2
              · subst hp1
                exact ⟨h3, by rw [← hki] at h4; exact h4⟩
              · exact hF k' hk1 hk2 p' hp2
            · rw [if_neg hki] at hp'
              exact hF k' hk1 hk2 p' hp'
          · rw [listAdd_freeArea, setOrder_freeArea] at hp' ⊢
            by_cases hki : k' = i
            · subst hki
              rw [if_pos rfl] at hp' ⊢
              rcases List.mem_cons.mp hp' with hp1 | hp2
              · subst hp1
                intro hcontra
                rcases List.mem_cons.mp hcontra with hc1 | hc2
                · exact xor_pow_ne p' (k' - MIN_ORDER) hc1
                · rw [← hbdef] at hc2
                  exact hmem hc2
              · intro hcontra
                rcases List.mem_cons.mp hcontra with hc1 | hc2
                · apply hmem
                  rw [hbdef, ← hc1, xor_pow_xor_pow]
                  exact hp2
                · exact hE k' hk1 hk2 p' hp2 hc2
            · rw [if_neg hki] at hp' ⊢
              exact hE k' hk1 hk2 p' hp'
      · rw [coalesceLoop_stop (by omega)]
        refine ⟨fun q hq => by rw [listAdd_pages, setOrder_address]; exact hA q hq,
          fun k' hk1 hk2 p' hp' => ?_, fun k' hk1 hk2 p' hp' => ?_⟩
        · rw [listAdd_freeArea, setOrder_freeArea] at hp'
          by_cases hki : k' = i
          · rw [if_pos hki] at hp'
            rcases List.mem_cons.mp hp' with hp1 | hp2
            · subst hp1
              exact ⟨h3, by rw [← hki] at h4; exact h4⟩
            · exact hF k' hk1 hk2 p' hp2
          · rw [if_neg hki] at hp'
            exact hF k' hk1 hk2 p' hp'
        · have hki : k' ≠ i := by rw [MAX_ORDER_eq] at hk2; omega
          rw [listAdd_freeArea, setOrder_freeArea, if_neg hki] at hp' ⊢
          exact hE k' hk1 hk2 p' hp'

theorem free_preserves_inv {s : AllocState} {A : List (Nat × Nat)} {a : Nat} {o : Nat}
    (hI : Inv s A) (hmem : (a, o) ∈ A) (hord : (s.pages (ADDR_TO_PAGE a)).order = (o : Int)) :
    Inv ((buddy_free s a).stateD s) (A.erase (a, o)) := by
  obtain ⟨hA, hF, hE, hG⟩ := hI
  obtain ⟨ho1, ho2, hp1, hp2, hp3⟩ := hG (a, o) hmem
  have hcheck : ¬ ((s.pages (ADDR_TO_PAGE a)).order < (MIN_ORDER : Int) ∨
      (s.pages (ADDR_TO_PAGE a)).order > (MAX_ORDER : Int)) := by
    rw [hord]
    rw [MIN_ORDER_eq] at ho1
    rw [MAX_ORDER_eq] at ho2
    rw [MIN_ORDER_eq, MAX_ORDER_eq]
    push_neg
    constructor <;> exact_mod_cast by omega
  have hfr : buddy_free s a = FreeOutcome.ok (coalesceLoop s (ADDR_TO_PAGE a) o) := by
    rw [buddy_free, if_neg hcheck, hord, Int.toNat_natCast]
  rw [hfr]
  have hcoal := coalesceLoop_inv 20 s (ADDR_TO_PAGE a) o
    (by rw [MIN_ORDER_eq] at ho1; omega) ho1 hp1 hp3 hA hF hE
  exact ⟨hcoal.1, hcoal.2.1, hcoal.2.2, fun q hq => hG q (List.mem_of_mem_erase hq)⟩

/-- Every reachable state satisfies the allocator invariant. -/
theorem reach_inv {s : AllocState} {A : List (Nat × Nat)} (h : Reach s A) : Inv s A := by
  induction h with
  | init s0 => exact init_inv s0
  | reinit h ih => exact init_inv _
  | allocOk h ha ih =>
      rename_i s A size a
      exact alloc_preserves_inv ih (by rw [← ha])
  | allocFail h ha ih =>
      rename_i s A size
      have : (buddy_alloc s size).2 = s :=
        @buddy_alloc_none s size ((buddy_alloc s size).2) (by rw [← ha])
      rw [this]
      exact ih
  | free h hmem hord ih => exact free_preserves_inv ih hmem hord

/-- **Claim C5.** In every state reachable from buddy_init by allocate/free
calls satisfying their preconditions, no block on free[k] with k < MAX has
its buddy also free at order k (coalescing is eager). -/
theorem claim_C5 (s : AllocState) (A : List (Nat × Nat)) (h : Reach s A) :
    ∀ k, MIN_ORDER ≤ k → k < MAX_ORDER → ∀ p ∈ s.freeArea k,
      p ^^^ 2 ^ (k - MIN_ORDER) ∉ s.freeArea k :=
  (reach_inv h).2.2.1

/-- Witness for C5: after init and one 1-byte allocation, page 1 is the block
on free[12] and its buddy (page 0) is not free at order 12. -/
theorem claim_C5_witness :
    (buddy_alloc (buddy_init anyState) 1).1 = some 0 ∧
    1 ∈ ((buddy_alloc (buddy_init anyState) 1).2).freeArea 12 ∧
    (1 : Nat) ^^^ 2 ^ (12 - MIN_ORDER) ∉ ((buddy_alloc (buddy_init anyState) 1).2).freeArea 12 := by
  refine ⟨by decide, by decide, ?_⟩
  exact claim_C5 (buddy_alloc (buddy_init anyState) 1).2 ((0, 12) :: [])
    (Reach.allocOk (Reach.init anyState) (by decide))
    12 (by decide) (by decide) 1 (by decide)

/-! ## Free immediately after a successful allocation restores the lists -/

theorem AllocState.ext2 {s1 s2 : AllocState} (h1 : s1.pages = s2.pages)
    (h2 : s1.freeArea = s2.freeArea) : s1 = s2 := by
  cases s1
  cases s2
  cases h1
  cases h2
  rfl

/-- Base case of the restoration argument: at order k (the order the head
block was taken from) the loop stops — at k = MAX without a lookup, below
MAX because the original state was eagerly coalesced — and reinserts the
head. -/
theorem coalesce_restore_base (s : AllocState) (P : Nat → Page) (k H : Nat) (rest : List Nat)
    (h12 : MIN_ORDER ≤ k)
    (hPaddr : (P H).address = PAGE_TO_ADDR H)
    (hhead : s.freeArea k = H :: rest)
    (hEk : k < 20 → H ^^^ 2 ^ (k - MIN_ORDER) ∉ s.freeArea k) :
    coalesceLoop { pages := P, freeArea := fun j => if j = k then rest else s.freeArea j } H k
      = listAdd
          (setOrder { pages := P, freeArea := fun j => if j = k then rest else s.freeArea j }
            H (k : Int)) H k := by
  set sk : AllocState :=
    { pages := P, freeArea := fun j => if j = k then rest else s.freeArea j } with hsk
  by_cases hk : k < 20
  · refine coalesceLoop_notfound hk ?_
    have hbeq : ADDR_TO_PAGE (BUDDY_ADDR ((sk.pages H).address) k)
        = H ^^^ 2 ^ (k - MIN_ORDER) :=
      buddy_page_eq hPaddr h12
    rw [hbeq]
    show H ^^^ 2 ^ (k - MIN_ORDER) ∉ (if k = k then rest else s.freeArea k)
    rw [if_pos rfl]
    intro hcontra
    exact hEk hk (by rw [hhead]; exact List.mem_cons_of_mem H hcontra)
  · exact coalesceLoop_stop (by omega)

/-- Running the coalesce loop from order i in the state left by a successful
allocation (split buddies on free[T..k-1], tail of the original free[k])
reinserts the head block at order k and restores every free list. -/
theorem coalesce_restore (s : AllocState) (P : Nat → Page) (T k H : Nat) (rest : List Nat)
    (hT12 : MIN_ORDER ≤ T) (hk20 : k ≤ 20)
    (hPaddr : (P H).address = PAGE_TO_ADDR H)
    (halign : H % 2 ^ (k - MIN_ORDER) = 0)
    (hhead : s.freeArea k = H :: rest)
    (hEk : k < 20 → H ^^^ 2 ^ (k - MIN_ORDER) ∉ s.freeArea k) :
    ∀ n i, k - i ≤ n → T ≤ i → i ≤ k →
      coalesceLoop
        { pages := P,
          freeArea := fun j =>
            if i ≤ j ∧ j < k then (H ^^^ 2 ^ (j - MIN_ORDER)) :: s.freeArea j
            else if j = k then rest else s.freeArea j } H i
      = listAdd
          (setOrder
            { pages := P,
              freeArea := fun j => if j = k then rest else s.freeArea j } H (k : Int)) H k := by
  intro n
  induction n with
  | zero =>
      intro i h1 h2 h3
      have hik : i = k := by omega
      subst hik
      have hfe : (fun j =>
          if i ≤ j ∧ j < i then (H ^^^ 2 ^ (j - MIN_ORDER)) :: s.freeArea j
          else if j = i then rest else s.freeArea j)
          = fun j => if j = i then rest else s.freeArea j := by
        funext j
        rw [if_neg (by omega)]
      rw [hfe]
      exact coalesce_restore_base s P i H rest (by omega) hPaddr hhead hEk
  | succ n ih =>
      intro i h1 h2 h3
      by_cases hik : i = k
      · subst hik
        have hfe : (fun j =>
            if i ≤ j ∧ j < i then (H ^^^ 2 ^ (j - MIN_ORDER)) :: s.freeArea j
            else if j = i then rest else s.freeArea j)
            = fun j => if j = i then rest else s.freeArea j := by
          funext j
          rw [if_neg (by omega)]
        rw [hfe]
        exact coalesce_restore_base s P i H rest (by omega) hPaddr hhead hEk
      · have hiklt : i < k := by omega
        have hi20 : i < 20 := by omega
        set sI : AllocState :=
          { pages := P,
            freeArea := fun j =>
              if i ≤ j ∧ j < k then (H ^^^ 2 ^ (j - MIN_ORDER)) :: s.freeArea j
              else if j = k then rest else s.freeArea j } with hsI
        have hbeq : ADDR_TO_PAGE (BUDDY_ADDR ((sI.pages H).address) i)
            = H ^^^ 2 ^ (i - MIN_ORDER) :=
          buddy_page_eq hPaddr (by rw [MIN_ORDER_eq] at hT12 ⊢; omega)
        have hmem : ADDR_TO_PAGE (BUDDY_ADDR ((sI.pages H).address) i) ∈ sI.freeArea i := by
          rw [hbeq]
          show H ^^^ 2 ^ (i - MIN_ORDER) ∈
            (if i ≤ i ∧ i < k then (H ^^^ 2 ^ (i - MIN_ORDER)) :: s.freeArea i
              else if i = k then rest else s.freeArea i)
          rw [if_pos ⟨le_refl i, hiklt⟩]
          exact List.mem_cons_self _ _
        rw [coalesceLoop_found hi20 hmem, hbeq]
        have hHb : ¬ (H ^^^ 2 ^ (i - MIN_ORDER) < H) := by
          have hbit : H.testBit (i - MIN_ORDER) = false := by
            refine testBit_false_of_mod halign ?_
            rw [MIN_ORDER_eq] at hT12 ⊢
            omega
          have := lt_xor_pow hbit
          omega
        rw [if_neg hHb]
        have hdel : listDel sI (H ^^^ 2 ^ (i - MIN_ORDER)) i =
            { pages := P,
              freeArea := fun j =>
                if i + 1 ≤ j ∧ j < k then (H ^^^ 2 ^ (j - MIN_ORDER)) :: s.freeArea j
                else if j = k then rest else s.freeArea j } := by
          refine AllocState.ext2 rfl ?_
          funext j
          show (if j = i then (sI.freeArea j).erase (H ^^^ 2 ^ (i - MIN_ORDER))
              else sI.freeArea j)
            = (if i + 1 ≤ j ∧ j < k then (H ^^^ 2 ^ (j - MIN_ORDER)) :: s.freeArea j
              else if j = k then rest else s.freeArea j)
          by_cases hji : j = i
          · rw [if_pos hji]
            show ((if i ≤ j ∧ j < k then (H ^^^ 2 ^ (j - MIN_ORDER)) :: s.freeArea j
                else if j = k then rest else s.freeArea j)).erase (H ^^^ 2 ^ (i - MIN_ORDER)) = _
            rw [if_pos ⟨(by omega : i ≤ j), (by omega : j < k)⟩]
            have hjeq : H ^^^ 2 ^ (j - MIN_ORDER) = H ^^^ 2 ^ (i - MIN_ORDER) := by rw [hji]
            rw [hjeq, List.erase_cons_head]
            rw [if_neg (by omega : ¬ (i + 1 ≤ j ∧ j < k)), if_neg (by omega : ¬ (j = k))]
          · rw [if_neg hji]
            show (if i ≤ j ∧ j < k then (H ^^^ 2 ^ (j - MIN_ORDER)) :: s.freeArea j
                else if j = k then rest else s.freeArea j)
              = (if i + 1 ≤ j ∧ j < k then (H ^^^ 2 ^ (j - MIN_ORDER)) :: s.freeArea j
                else if j = k then rest else s.freeArea j)
            by_cases hcond : i + 1 ≤ j ∧ j < k
            · rw [if_pos (by omega : i ≤ j ∧ j < k), if_pos hcond]
            · rw [if_neg (by omega : ¬ (i ≤ j ∧ j < k)), if_neg hcond]
        rw [hdel]
        exact ih (i + 1) (by omega) (by omega) (by omega)

/-- **Claim C4.** For every reachable state and every size on which
buddy_alloc succeeds, immediately freeing the returned address restores every
free list (up to ordering within a list — here in fact exactly). -/
theorem claim_C4 (s : AllocState) (A : List (Nat × Nat)) (size : Int) (a : Nat)
    (hr : Reach s A) (ha : (buddy_alloc s size).1 = some a) :
    (buddy_free ((buddy_alloc s size).2) a).isOk = true ∧
    ∀ ord, List.Perm
      (((buddy_free ((buddy_alloc s size).2) a).stateD ((buddy_alloc s size).2)).freeArea ord)
      (s.freeArea ord) := by
  obtain ⟨hA, hF, hE, hG⟩ := reach_inv hr
  obtain ⟨T, k, p, rest, hTeq, hT12, hT20, hTk, hk20, hmin, hhead, haeq, hsteq⟩ :=
    @buddy_alloc_some s size a ((buddy_alloc s size).2) (by rw [← ha])
  have hpmem : p ∈ s.freeArea k := by rw [hhead]; exact List.mem_cons_self p rest
  have hpwf := hF k (by rw [MIN_ORDER_eq]; omega) (by rw [MAX_ORDER_eq]; omega) p hpmem
  have hcanonp : (s.pages p).address = PAGE_TO_ADDR p := hA p hpwf.1
  set st := (buddy_alloc s size).2 with hstdef
  have hpageofa : ADDR_TO_PAGE a = p := by rw [haeq, hcanonp, pageOf_pageAddr]
  have hstaddr : (st.pages p).address = PAGE_TO_ADDR p := by
    rw [hsteq, setOrder_address, splitMemory_address]
    exact hcanonp
  have hstord : (st.pages p).order = (T : Int) := by
    rw [hsteq, setOrder_pages_same]
  have hcheck : ¬ ((st.pages (ADDR_TO_PAGE a)).order < (MIN_ORDER : Int) ∨
      (st.pages (ADDR_TO_PAGE a)).order > (MAX_ORDER : Int)) := by
    rw [hpageofa, hstord, MIN_ORDER_eq, MAX_ORDER_eq]
    push_neg
    constructor <;> exact_mod_cast by omega
  have hfr : buddy_free st a = FreeOutcome.ok (coalesceLoop st p T) := by
    rw [buddy_free, if_neg hcheck, hpageofa, hstord, Int.toNat_natCast]
  have hstform : st =
      { pages := st.pages,
        freeArea := fun j =>
          if T ≤ j ∧ j < k then (p ^^^ 2 ^ (j - MIN_ORDER)) :: s.freeArea j
          else if j = k then rest else s.freeArea j } := by
    refine AllocState.ext2 rfl ?_
    funext j
    rw [hsteq, alloc_state_freeArea hTk j]
    show _ = (if T ≤ j ∧ j < k then (p ^^^ 2 ^ (j - MIN_ORDER)) :: s.freeArea j
        else if j = k then rest else s.freeArea j)
    by_cases hc : T ≤ j ∧ j < k
    · rw [if_pos hc]
      rw [if_pos hc]
      rw [buddy_page_eq hcanonp (by rw [MIN_ORDER_eq]; omega)]
    · rw [if_neg hc]
      rw [if_neg hc]
  have hEk : k < 20 → p ^^^ 2 ^ (k - MIN_ORDER) ∉ s.freeArea k := fun hk =>
    hE k (by rw [MIN_ORDER_eq]; omega) (by rw [MAX_ORDER_eq]; omega) p hpmem
  have hrestore := coalesce_restore s st.pages T k p rest
    (by rw [MIN_ORDER_eq]; omega) hk20 hstaddr hpwf.2 hhead hEk k T (by omega) (le_refl T) hTk
  have hloop : coalesceLoop st p T =
      listAdd
        (setOrder
          { pages := st.pages,
            freeArea := fun j => if j = k then rest else s.freeArea j } p (k : Int)) p k := by
    conv_lhs => rw [hstform]
    exact hrestore
  refine ⟨by rw [hfr]; rfl, fun ord => ?_⟩
  have hres : ((buddy_free st a).stateD st).freeArea ord = s.freeArea ord := by
    rw [hfr]
    show (coalesceLoop st p T).freeArea ord = s.freeArea ord
    rw [hloop, listAdd_freeArea, setOrder_freeArea]
    by_cases hok : ord = k
    · subst hok
      rw [if_pos rfl]
      show p :: (if ord = ord then rest else s.freeArea ord) = s.freeArea ord
      rw [if_pos rfl, ← hhead]
    · rw [if_neg hok]
      show (if ord = k then rest else s.freeArea ord) = s.freeArea ord
      rw [if_neg hok]
  rw [hres]

/-- Witness for C4: init, allocate 1 byte (returns address 0), free it; every
free list is restored (checked here at orders 20 and 12). -/
theorem claim_C4_witness :
    (buddy_alloc (buddy_init anyState) 1).1 = some 0 ∧
    (buddy_free ((buddy_alloc (buddy_init anyState) 1).2) 0).isOk = true ∧
    List.Perm
      (((buddy_free ((buddy_alloc (buddy_init anyState) 1).2) 0).stateD
          ((buddy_alloc (buddy_init anyState) 1).2)).freeArea 20)
      ((buddy_init anyState).freeArea 20) ∧
    List.Perm
      (((buddy_free ((buddy_alloc (buddy_init anyState) 1).2) 0).stateD
          ((buddy_alloc (buddy_init anyState) 1).2)).freeArea 12)
      ((buddy_init anyState).freeArea 12) := by
  have h := claim_C4 (buddy_init anyState) [] 1 0 (Reach.init anyState) (by decide)
  exact ⟨by decide, h.1, h.2 20, h.2 12⟩

/-! ## Invalid stored orders: the two copies differ (claim C9) -/

/-- Counterexample to C9 as stated: calling src/buddy/buddy.c's buddy_free on
an address whose descriptor carries stored order 21 (outside [MIN, MAX]) is
not detected — no diagnostic, no abort — and the block is inserted into
free_area[21] (an out-of-bounds write in the C source). -/
theorem claim_C9_counterexample :
    ((invalidOrderState.pages (ADDR_TO_PAGE 0)).order > (MAX_ORDER : Int)) ∧
    (buddy2_free invalidOrderState 0).isOk = true ∧
    ((buddy2_free invalidOrderState 0).stateD invalidOrderState).freeArea 21 = [0] := by
  refine ⟨by decide, by decide, by decide⟩

/-- **Claim C9 (amended).** On a stored order outside [MIN, MAX],
src/buddy.c's buddy_free detects it, prints a diagnostic and spins forever,
performing no coalescing and no insertion (the fatal outcome); the
src/buddy/buddy.c copy performs no such check — for a stored order above MAX
it runs no loop iteration and inserts the block at the head of
free_area[order] (out of bounds), stamping the descriptor with that order. -/
theorem claim_C9 (s : AllocState) (addr : Nat)
    (hbad : (s.pages (ADDR_TO_PAGE addr)).order < (MIN_ORDER : Int) ∨
      (s.pages (ADDR_TO_PAGE addr)).order > (MAX_ORDER : Int)) :
    buddy_free s addr = FreeOutcome.fatal ∧
    ((MAX_ORDER : Int) < (s.pages (ADDR_TO_PAGE addr)).order →
      (buddy2_free s addr).isOk = true ∧
      ((buddy2_free s addr).stateD s).freeArea ((s.pages (ADDR_TO_PAGE addr)).order).toNat
        = (ADDR_TO_PAGE addr) :: s.freeArea ((s.pages (ADDR_TO_PAGE addr)).order).toNat ∧
      (((buddy2_free s addr).stateD s).pages (ADDR_TO_PAGE addr)).order
        = (((s.pages (ADDR_TO_PAGE addr)).order).toNat : Int)) := by
  constructor
  · rw [buddy_free, if_pos hbad]
  · intro hgt
    have hnlt : ¬ ((s.pages (ADDR_TO_PAGE addr)).order < (MIN_ORDER : Int)) := by
      rw [MIN_ORDER_eq]
      rw [MAX_ORDER_eq] at hgt
      omega
    have hfr : buddy2_free s addr =
        FreeOutcome.ok
          (coalesceLoop s (ADDR_TO_PAGE addr) ((s.pages (ADDR_TO_PAGE addr)).order).toNat) := by
      rw [buddy2_free, if_neg hnlt]
    have hstop : coalesceLoop s (ADDR_TO_PAGE addr) ((s.pages (ADDR_TO_PAGE addr)).order).toNat
        = listAdd
            (setOrder s (ADDR_TO_PAGE addr)
              ((((s.pages (ADDR_TO_PAGE addr)).order).toNat : Nat) : Int))
            (ADDR_TO_PAGE addr) ((s.pages (ADDR_TO_PAGE addr)).order).toNat := by
      refine coalesceLoop_stop ?_
      rw [MAX_ORDER_eq] at hgt
      omega
    rw [hfr]
    refine ⟨rfl, ?_, ?_⟩
    · show (coalesceLoop s (ADDR_TO_PAGE addr)
          ((s.pages (ADDR_TO_PAGE addr)).order).toNat).freeArea _ = _
      rw [hstop, listAdd_freeArea_same, setOrder_freeArea]
    · show ((coalesceLoop s (ADDR_TO_PAGE addr)
          ((s.pages (ADDR_TO_PAGE addr)).order).toNat).pages (ADDR_TO_PAGE addr)).order = _
      rw [hstop, listAdd_pages, setOrder_pages_same]

/-- Witness for the amended C9 at the concrete corrupt state (stored order
21): src/buddy.c goes fatal, src/buddy/buddy.c proceeds. -/
theorem claim_C9_witness :
    ((invalidOrderState.pages (ADDR_TO_PAGE 0)).order < (MIN_ORDER : Int) ∨
      (invalidOrderState.pages (ADDR_TO_PAGE 0)).order > (MAX_ORDER : Int)) ∧
    buddy_free invalidOrderState 0 = FreeOutcome.fatal ∧
    (buddy2_free invalidOrderState 0).isOk = true := by
  have h := claim_C9 invalidOrderState 0 (Or.inr (by decide))
  exact ⟨Or.inr (by decide), h.1, (h.2 (by decide)).1⟩

/-! ## Equivalence of the two source copies (claim C10) -/

theorem runTrace1_cons (s : AllocState) (op : BOp) (ops : List BOp) :
    runTrace1 s (op :: ops) =
      match step1 s op with
      | none => none
      | some (r, s1) => (runTrace1 s1 ops).map (fun tr => (r, s1) :: tr) := rfl

theorem runTrace2_cons (s : AllocState) (op : BOp) (ops : List BOp) :
    runTrace2 s (op :: ops) =
      match step2 s op with
      | none => none
      | some (r, s1) => (runTrace2 s1 ops).map (fun tr => (r, s1) :: tr) := rfl

/-- A non-fatal buddy_free of src/buddy.c yields the very same state under
src/buddy/buddy.c (the two copies share the coalesce loop; they differ only
in the order-range check). -/
theorem buddy2_free_of_ok {s : AllocState} {addr : Nat} {s1 : AllocState}
    (h : buddy_free s addr = FreeOutcome.ok s1) : buddy2_free s addr = FreeOutcome.ok s1 := by
  rw [buddy_free] at h
  rw [buddy2_free]
  by_cases hc : (s.pages (ADDR_TO_PAGE addr)).order < (MIN_ORDER : Int) ∨
      (s.pages (ADDR_TO_PAGE addr)).order > (MAX_ORDER : Int)
  · rw [if_pos hc] at h
    exact absurd h (by simp)
  · rw [if_neg hc] at h
    rw [if_neg (fun hlt => hc (Or.inl hlt))]
    exact h

theorem step_agree {s : AllocState} {op : BOp} {r : Option Nat × AllocState}
    (h : step1 s op = some r) : step2 s op = some r := by
  cases op with
  | init => exact h
  | alloc size => exact h
  | free addr =>
      show (match buddy2_free s addr with
        | FreeOutcome.ok s1 => some (none, s1)
        | _ => none) = some r
      have h1 : (match buddy_free s addr with
          | FreeOutcome.ok s1 => some (none, s1)
          | _ => none) = some r := h
      cases hbf : buddy_free s addr with
      | ok s1 =>
          rw [hbf] at h1
          rw [buddy2_free_of_ok hbf]
          exact h1
      | fatal =>
          rw [hbf] at h1
          simp at h1
      | ub =>
          rw [hbf] at h1
          simp at h1

/-- **Claim C10.** For every call sequence on which src/buddy.c completes
(every free hits a stored order inside [MIN, MAX] — in particular every
sequence satisfying the spec's preconditions), the src/buddy/buddy.c copy
returns the same address from every allocation and produces the identical
state after every call. -/
theorem claim_C10 (ops : List BOp) (s : AllocState)
    (h : (runTrace1 s ops).isSome = true) : runTrace2 s ops = runTrace1 s ops := by
  induction ops generalizing s with
  | nil => rfl
  | cons op rest ih =>
      rw [runTrace1_cons] at h ⊢
      rw [runTrace2_cons]
      cases hstep : step1 s op with
      | none =>
          rw [hstep] at h
          simp at h
      | some rs =>
          obtain ⟨r, s1⟩ := rs
          rw [step_agree hstep]
          show (runTrace2 s1 rest).map _ = (runTrace1 s1 rest).map _
          have hne : (runTrace1 s1 rest).isSome = true := by
            rw [hstep] at h
            simpa using h
          rw [ih s1 hne]

/-- Witness for C10 on the concrete sequence init; alloc 1; free 0. -/
theorem claim_C10_witness :
    (runTrace1 anyState [BOp.init, BOp.alloc 1, BOp.free 0]).isSome = true ∧
    runTrace2 anyState [BOp.init, BOp.alloc 1, BOp.free 0]
      = runTrace1 anyState [BOp.init, BOp.alloc 1, BOp.free 0] :=
  ⟨by decide, claim_C10 [BOp.init, BOp.alloc 1, BOp.free 0] anyState (by decide)⟩

end Buddy
